import Mathlib

/-!
# Sudoku solver: constraint checker and incremental backtracking step

Shallow embedding of `Application::validateCell`, `Application::solveSudoku`
and the digit-entry / backspace branches of `Application::handleInput`
from `src/main.cpp`.

* `m_sudoku` is a `std::array<std::pair<size_t, bool>, 81>`: a vector of 81
  pairs, `first` the value (0 = empty), `second` the user-entered flag.
* `m_numbers` is a `std::array<size_t, 81>`.
* `index` is the function-local `static size_t index` of `solveSudoku`; it is
  carried in the state explicitly.
* `std::array::at` is bounds checked: an index that is not below 81 throws
  `std::out_of_range`.  Nothing in the program catches it, so an exception
  ends the run; it is the `Except.error` result here.
* `size_t` is 64 bits wide, the components of `sf::Vector2u` are 32 bits wide;
  the wrap-around is written out where an operation can overflow.
-/

namespace Sudoku

/-- The exception of a bounds-checked `std::array::at`. -/
inductive Error where
  | out_of_range
  deriving DecidableEq, Repr

/-- The array `m_sudoku`: 81 pairs (value, entered by the user). -/
abbrev Grid := Mathlib.Vector (Nat × Bool) 81

/-- The array `m_numbers`: the digit last placed at each cell. -/
abbrev Numbers := Mathlib.Vector Nat 81

/-- The members the solver works on, with the static local `index`. -/
structure State where
  m_sudoku : Grid
  m_numbers : Numbers
  index : Nat
  deriving DecidableEq

/-- Bounds-checked read, `a.at(i)`. -/
def arrAt {α : Type} (a : Mathlib.Vector α 81) (i : Nat) : Except Error α :=
  if h : i < 81 then .ok (a.get ⟨i, h⟩) else .error .out_of_range

/-- Bounds-checked write, `a.at(i) = v`. -/
def arrSet {α : Type} (a : Mathlib.Vector α 81) (i : Nat) (v : α) :
    Except Error (Mathlib.Vector α 81) :=
  if h : i < 81 then .ok (a.set ⟨i, h⟩ v) else .error .out_of_range

/-- Bounds-checked write of the value only, `m_sudoku.at(i).first = v`. -/
def setFirst (g : Grid) (i : Nat) (v : Nat) : Except Error Grid :=
  if h : i < 81 then .ok (g.set ⟨i, h⟩ (v, (g.get ⟨i, h⟩).2)) else .error .out_of_range

/-- Width of `unsigned int`, the component type of `sf::Vector2u`. -/
def U32 : Nat := 4294967296

/-- Width of `size_t`. -/
def U64 : Nat := 18446744073709551616

/-- The statement `index--` on a `size_t`: from 0 it wraps to `2^64 - 1`. -/
def decr (i : Nat) : Nat := if i = 0 then U64 - 1 else i - 1

/-- The cells read by the first loop of `validateCell`, in the order read:
for `i = 0 .. 8` the cell `i + index.y * 9` of the row, then the cell
`index.x + i * 9` of the column. -/
def rowColCells (x y : Nat) : List Nat :=
  (List.range 9).flatMap (fun i => [i + (y * 9) % U32, x + i * 9])

/-- The cells read by the nested loops of `validateCell`, in the order read:
`i` from `(index.x / 3) * 3` while `i < (index.x / 3) * 3 + 3`, and inside
`j` from `(index.y / 3) * 3` while `j < (index.y / 3) * 3 + 3`, the cell
`i + j * 9`. -/
def subgridCells (x y : Nat) : List Nat :=
  (List.range' (x / 3 * 3) ((x / 3 * 3 + 3) % U32 - x / 3 * 3)).flatMap (fun i =>
    (List.range' (y / 3 * 3) ((y / 3 * 3 + 3) % U32 - y / 3 * 3)).map (fun j => i + j * 9))

/-- Reads the listed cells in order: `false` at the first one holding
`number`, the exception at the first one out of range, `true` at the end. -/
def scanCells (g : Grid) (number : Nat) : List Nat → Except Error Bool
  | [] => .ok true
  | k :: rest =>
    match arrAt g k with
    | .error e => .error e
    | .ok c => if c.1 = number then .ok false else scanCells g number rest

/-- The function `Application::validateCell(number, {x, y})`: the first loop
returns `false` from the function, so the subgrid loops run only after it
has read all its cells. -/
def validateCell (g : Grid) (number x y : Nat) : Except Error Bool :=
  scanCells g number (rowColCells x y ++ subgridCells x y)

/-- The loop `for (; num <= 9; ++num) if (validateCell(num, ..)) { numFound = true; break; }`;
the first argument counts the iterations left, `10 - num`.  The result is
`(numFound, num)` after the loop. -/
def searchNum (g : Grid) (x y : Nat) : Nat → Nat → Except Error (Bool × Nat)
  | 0, num => .ok (false, num)
  | left + 1, num =>
    match validateCell g num x y with
    | .error e => .error e
    | .ok true => .ok (true, num)
    | .ok false => searchNum g x y left (num + 1)

/-- The loop `while (m_sudoku.at(index).second) index--;`, by the value of
`index` on entry.  From 0 the decrement wraps to `2^64 - 1`, where `.at`
throws. -/
def whileFixed (g : Grid) : Nat → Except Error Nat
  | 0 =>
    match arrAt g 0 with
    | .error e => .error e
    | .ok c =>
      if c.2 then
        match arrAt g (decr 0) with
        | .error e => .error e
        | .ok _ => .error .out_of_range
      else .ok 0
  | i + 1 =>
    match arrAt g (i + 1) with
    | .error e => .error e
    | .ok c => if c.2 then whileFixed g i else .ok (i + 1)

/-- The function `Application::solveSudoku`: one call, returning the `bool`
and the state after it. -/
def solveSudoku (s : State) : Except Error (Bool × State) :=
  if 81 ≤ s.index then .ok (true, s)
  else
    match arrAt s.m_sudoku s.index with
    | .error e => .error e
    | .ok c =>
      if c.2 then .ok (false, { s with index := s.index + 1 })
      else
        match arrAt s.m_numbers s.index with
        | .error e => .error e
        | .ok n =>
          match searchNum s.m_sudoku (s.index % 9) (s.index / 9)
              (10 - (if n ≠ 0 then n else 1)) (if n ≠ 0 then n else 1) with
          | .error e => .error e
          | .ok (true, num) =>
            match setFirst s.m_sudoku s.index num with
            | .error e => .error e
            | .ok g =>
              match arrSet s.m_numbers s.index num with
              | .error e => .error e
              | .ok m => .ok (false, { m_sudoku := g, m_numbers := m, index := s.index + 1 })
          | .ok (false, _) =>
            match setFirst s.m_sudoku s.index 0 with
            | .error e => .error e
            | .ok g =>
              match arrSet s.m_numbers s.index 0 with
              | .error e => .error e
              | .ok m =>
                match whileFixed g (decr s.index) with
                | .error e => .error e
                | .ok j => .ok (false, { m_sudoku := g, m_numbers := m, index := j })

/-- The calls `Application::update` makes while solving: `n` calls of
`solveSudoku` in a row. -/
def solveSteps : Nat → State → Except Error State
  | 0, s => .ok s
  | n + 1, s =>
    match solveSudoku s with
    | .error e => .error e
    | .ok (_, t) => solveSteps n t

/-- The digit branch of `Application::handleInput`: with key code `code`
in 27..35 and the selected cell `(x, y)`, the digit `code - 26` is entered
when `validateCell` accepts it, and the grid is left as it is otherwise. -/
def enterDigit (g : Grid) (code x y : Nat) : Except Error Grid :=
  match validateCell g (code - 26) x y with
  | .error e => .error e
  | .ok false => .ok g
  | .ok true => arrSet g ((x + y * 9) % U32) (code - 26, true)

/-- The backspace branch of `Application::handleInput`:
`m_sudoku.at(x + y * 9).first = 0`. -/
def backspace (g : Grid) (x y : Nat) : Except Error Grid :=
  setFirst g ((x + y * 9) % U32) 0

/-- The grid of `Application::Application`: `m_sudoku{ }`, every pair zero. -/
def emptyGrid : Grid := Mathlib.Vector.replicate 81 (0, false)

/-- The candidate memory `m_numbers{ }`. -/
def zeroNumbers : Numbers := Mathlib.Vector.replicate 81 0

/-- The state in which the first call of `solveSudoku` finds a grid. -/
def startState (g : Grid) : State := { m_sudoku := g, m_numbers := zeroNumbers, index := 0 }

/-- Value of a cell. -/
def val (g : Grid) (i : Fin 81) : Nat := (g.get i).1

/-- User-entered flag of a cell. -/
def isFixed (g : Grid) (i : Fin 81) : Bool := (g.get i).2

/-- Two cell indices share a row, a column or a 3x3 subgrid. -/
def related (i j : Nat) : Prop :=
  i / 9 = j / 9 ∨ i % 9 = j % 9 ∨ (i % 9 / 3 = j % 9 / 3 ∧ i / 9 / 3 = j / 9 / 3)

instance (i j : Nat) : Decidable (related i j) := by unfold related; infer_instance

/-- No cell related to `t` (the cell `t` included) holds `d`. -/
def free (g : Grid) (t : Fin 81) (d : Nat) : Prop :=
  ∀ k : Fin 81, related k t → val g k ≠ d

instance (g : Grid) (t : Fin 81) (d : Nat) : Decidable (free g t d) := by
  unfold free; infer_instance

/-- The digit the search loop starts from: `m_numbers.at(index) ? m_numbers.at(index) : 1`. -/
def startNum (m : Numbers) (i : Fin 81) : Nat := if m.get i ≠ 0 then m.get i else 1

/-- The state after the branch `if (numFound)` wrote `d` at cell `i`. -/
def placeAt (s : State) (i : Fin 81) (d : Nat) : State :=
  { m_sudoku := s.m_sudoku.set i (d, (s.m_sudoku.get i).2),
    m_numbers := s.m_numbers.set i d,
    index := s.index + 1 }

/-- The state after the backtracking branch cleared cell `i` and moved the
index to `j`. -/
def clearAt (s : State) (i : Fin 81) (j : Nat) : State :=
  { m_sudoku := s.m_sudoku.set i (0, (s.m_sudoku.get i).2),
    m_numbers := s.m_numbers.set i 0,
    index := j }

/-- No two distinct cells of one row, one column or one 3x3 subgrid hold the
same non-zero value. -/
def valid (g : Grid) : Prop :=
  ∀ i j : Fin 81, i ≠ j → related i j → val g i ≠ 0 → val g i ≠ val g j

/-- A state in which a solve begins: index 0, candidate memory all zero,
every cell that is not user-entered empty. -/
structure Start (s : State) : Prop where
  idx : s.index = 0
  nums : ∀ j : Fin 81, s.m_numbers.get j = 0
  empty : ∀ j : Fin 81, isFixed s.m_sudoku j = false → val s.m_sudoku j = 0

/-- The value of cell `j` differs from the value of every other related cell
that is user-entered or comes before `j`. -/
def placedOK (g : Grid) (j : Fin 81) : Prop :=
  ∀ k : Fin 81, k ≠ j → related k j → (isFixed g k = true ∨ k < j) → val g k ≠ val g j

/-- What holds of every state the solver reaches from a start state with
grid `g0`. -/
structure Inv (g0 : Grid) (s : State) : Prop where
  idx_le : s.index ≤ 81
  flags : ∀ j : Fin 81, isFixed s.m_sudoku j = isFixed g0 j
  fixedVal : ∀ j : Fin 81, isFixed g0 j = true → val s.m_sudoku j = val g0 j
  eq_num : ∀ j : Fin 81, isFixed g0 j = false → val s.m_sudoku j = s.m_numbers.get j
  le9 : ∀ j : Fin 81, isFixed g0 j = false → val s.m_sudoku j ≤ 9
  after : ∀ j : Fin 81, isFixed g0 j = false → s.index < j.val → val s.m_sudoku j = 0
  before : ∀ j : Fin 81, isFixed g0 j = false → j.val < s.index →
    1 ≤ val s.m_sudoku j ∧ placedOK s.m_sudoku j

/-- A grid `g` that fills the cells of `g0` that are not user-entered with
digits 1..9, keeps the user-entered values, and has no repeat. -/
structure Completion (g0 g : Grid) : Prop where
  fixedSame : ∀ j : Fin 81, isFixed g0 j = true → val g j = val g0 j
  digits : ∀ j : Fin 81, isFixed g0 j = false → 1 ≤ val g j ∧ val g j ≤ 9
  norepeat : valid g

/-- No completion has been passed over: a completion that agrees with the
grid on all cells before a cell `j` the search has reached holds at `j` at
least the value placed there, and more than the value at the cursor. -/
def NoMissed (g0 : Grid) (s : State) : Prop :=
  ∀ g : Grid, Completion g0 g → ∀ j : Fin 81, isFixed g0 j = false → j.val ≤ s.index →
    (∀ k : Fin 81, k < j → val g k = val s.m_sudoku k) →
    (j.val < s.index → val s.m_sudoku j ≤ val g j) ∧
    (j.val = s.index → val s.m_sudoku j < val g j)

/-- The search abandons the puzzle at this state: the index is on a cell
that is not user-entered, no digit from the starting one up to 9 is accepted
there, and no cell before it can be returned to. -/
def Abandons (s : State) : Prop :=
  ∃ hi : s.index < 81, isFixed s.m_sudoku ⟨s.index, hi⟩ = false ∧
    (∀ e, startNum s.m_numbers ⟨s.index, hi⟩ ≤ e → e ≤ 9 →
      validateCell s.m_sudoku e (s.index % 9) (s.index / 9) ≠ .ok true) ∧
    (∀ m : Fin 81, m.val < s.index → isFixed s.m_sudoku m = true)

/-- Progress of the search at cell `j`: a user-entered cell counts once it
is passed, another cell counts twice its candidate, plus one while the index
is on it. -/
def dig (s : State) (j : Fin 81) : Nat :=
  if isFixed s.m_sudoku j = true then (if j.val < s.index then 1 else 0)
  else 2 * s.m_numbers.get j + (if j.val = s.index then 1 else 0)

/-- The order in which `dig` grows: larger at the first cell where two
progress vectors differ, never above 19. -/
def progressLt (a b : Fin 81 → Nat) : Prop :=
  Pi.Lex (fun i j : Fin 81 => i < j) (fun x y : Nat => y < x ∧ x ≤ 19) a b

/-- Executable form of `valid`. -/
def validB (g : Grid) : Bool :=
  (List.finRange 81).all fun i => (List.finRange 81).all fun j =>
    decide (i ≠ j → related i j → val g i ≠ 0 → val g i ≠ val g j)

/-- Every cell holds a digit 1..9. -/
def digitsB (g : Grid) : Bool :=
  (List.finRange 81).all fun j => decide (1 ≤ val g j ∧ val g j ≤ 9)

/-- The grid the solver fills the empty grid with. -/
def solvedGrid : Grid :=
  ⟨[(1, false), (2, false), (3, false), (4, false), (5, false), (6, false), (7, false), (8, false), (9, false),
    (4, false), (5, false), (6, false), (7, false), (8, false), (9, false), (1, false), (2, false), (3, false),
    (7, false), (8, false), (9, false), (1, false), (2, false), (3, false), (4, false), (5, false), (6, false),
    (2, false), (1, false), (4, false), (3, false), (6, false), (5, false), (8, false), (9, false), (7, false),
    (3, false), (6, false), (5, false), (8, false), (9, false), (7, false), (2, false), (1, false), (4, false),
    (8, false), (9, false), (7, false), (2, false), (1, false), (4, false), (3, false), (6, false), (5, false),
    (5, false), (3, false), (1, false), (6, false), (4, false), (2, false), (9, false), (7, false), (8, false),
    (6, false), (4, false), (2, false), (9, false), (7, false), (8, false), (5, false), (3, false), (1, false),
    (9, false), (7, false), (8, false), (5, false), (3, false), (1, false), (6, false), (4, false), (2, false)],
   rfl⟩

/-- A puzzle without solution whose entries repeat nowhere: the first row
holds 1..8 after its first cell, and 9 stands below that cell. -/
def deadEndGrid : Grid :=
  ⟨[(0, false), (1, true), (2, true), (3, true), (4, true), (5, true), (6, true), (7, true), (8, true),
    (9, true), (0, false), (0, false), (0, false), (0, false), (0, false), (0, false), (0, false), (0, false),
    (0, false), (0, false), (0, false), (0, false), (0, false), (0, false), (0, false), (0, false), (0, false),
    (0, false), (0, false), (0, false), (0, false), (0, false), (0, false), (0, false), (0, false), (0, false),
    (0, false), (0, false), (0, false), (0, false), (0, false), (0, false), (0, false), (0, false), (0, false),
    (0, false), (0, false), (0, false), (0, false), (0, false), (0, false), (0, false), (0, false), (0, false),
    (0, false), (0, false), (0, false), (0, false), (0, false), (0, false), (0, false), (0, false), (0, false),
    (0, false), (0, false), (0, false), (0, false), (0, false), (0, false), (0, false), (0, false), (0, false),
    (0, false), (0, false), (0, false), (0, false), (0, false), (0, false), (0, false), (0, false), (0, false)],
   rfl⟩

/-- User-entered cells that make the search return to the first cell: the
first row holds 3..9 from its third cell on, and 2 stands in the second
column of the fourth row. -/
def retryGrid : Grid :=
  ⟨[(0, false), (0, false), (3, true), (4, true), (5, true), (6, true), (7, true), (8, true), (9, true),
    (0, false), (0, false), (0, false), (0, false), (0, false), (0, false), (0, false), (0, false), (0, false),
    (0, false), (0, false), (0, false), (0, false), (0, false), (0, false), (0, false), (0, false), (0, false),
    (0, false), (2, true), (0, false), (0, false), (0, false), (0, false), (0, false), (0, false), (0, false),
    (0, false), (0, false), (0, false), (0, false), (0, false), (0, false), (0, false), (0, false), (0, false),
    (0, false), (0, false), (0, false), (0, false), (0, false), (0, false), (0, false), (0, false), (0, false),
    (0, false), (0, false), (0, false), (0, false), (0, false), (0, false), (0, false), (0, false), (0, false),
    (0, false), (0, false), (0, false), (0, false), (0, false), (0, false), (0, false), (0, false), (0, false),
    (0, false), (0, false), (0, false), (0, false), (0, false), (0, false), (0, false), (0, false), (0, false)],
   rfl⟩

deriving instance DecidableEq for Except

/-- Executable form of the third condition of `Start`. -/
def unfixedEmptyB (g : Grid) : Bool :=
  (List.finRange 81).all fun j => decide (isFixed g j = false → val g j = 0)

/-- The state two calls after `startState retryGrid`: the first call placed
1 at cell 0, the second found no digit for cell 1 and moved the index back. -/
def retryMid : State :=
  clearAt (placeAt (startState retryGrid) ⟨0, by decide⟩ 1) ⟨1, by decide⟩ 0

/-- The state after the third call: 2 stands at cell 0. -/
def retryNext : State := placeAt retryMid ⟨0, by decide⟩ 2

theorem arrAt_lt {α : Type} (a : Mathlib.Vector α 81) {i : Nat} (h : i < 81) :
    arrAt a i = .ok (a.get ⟨i, h⟩) := by
  simp [arrAt, h]

theorem arrAt_ge {α : Type} (a : Mathlib.Vector α 81) {i : Nat} (h : 81 ≤ i) :
    arrAt a i = .error .out_of_range := by
  simp [arrAt, Nat.not_lt.mpr h]

theorem scanCells_inRange (g : Grid) (d : Nat) (l : List Nat) (hl : ∀ k ∈ l, k < 81) :
    scanCells g d l = .ok (decide (∀ k : Fin 81, k.val ∈ l → val g k ≠ d)) := by
  induction l with
  | nil => simp [scanCells]
  | cons a l ih =>
    have ha : a < 81 := hl a (by simp)
    have hl2 : ∀ k ∈ l, k < 81 := fun k hk => hl k (by simp [hk])
    rw [scanCells, arrAt_lt g ha]
    simp only []
    by_cases hv : (g.get ⟨a, ha⟩).1 = d
    · rw [if_pos hv]
      congr 1
      symm
      rw [decide_eq_false_iff_not]
      intro hall
      exact hall ⟨a, ha⟩ (by simp) hv
    · rw [if_neg hv, ih hl2]
      congr 1
      rw [decide_eq_decide]
      constructor
      · intro hall k hk
        rcases List.mem_cons.mp hk with h | h
        · have : k = ⟨a, ha⟩ := Fin.ext h
          subst this
          exact hv
        · exact hall k h
      · intro hall k hk
        exact hall k (List.mem_cons_of_mem _ hk)

theorem mem_rowColCells {x y k : Nat} (hx : x < 9) (hy : y < 9) :
    k ∈ rowColCells x y ↔ k < 81 ∧ (k / 9 = y ∨ k % 9 = x) := by
  have e0 : (y * 9) % U32 = y * 9 := Nat.mod_eq_of_lt (by unfold U32; omega)
  simp only [rowColCells, e0, List.mem_flatMap, List.mem_range, List.mem_cons,
    List.mem_singleton, List.not_mem_nil, or_false]
  constructor
  · rintro ⟨i, hi, h | h⟩ <;> omega
  · rintro ⟨hk, h | h⟩
    · exact ⟨k % 9, by omega, Or.inl (by omega)⟩
    · exact ⟨k / 9, by omega, Or.inr (by omega)⟩

theorem mem_subgridCells {x y k : Nat} (hx : x < 9) (hy : y < 9) :
    k ∈ subgridCells x y ↔ k < 81 ∧ k % 9 / 3 = x / 3 ∧ k / 9 / 3 = y / 3 := by
  have e1 : (x / 3 * 3 + 3) % U32 - x / 3 * 3 = 3 := by unfold U32; omega
  have e2 : (y / 3 * 3 + 3) % U32 - y / 3 * 3 = 3 := by unfold U32; omega
  simp only [subgridCells, e1, e2, List.mem_flatMap, List.mem_map, List.mem_range'_1]
  constructor
  · rintro ⟨i, hi, j, hj, rfl⟩
    omega
  · rintro ⟨hk, h1, h2⟩
    exact ⟨k % 9, by omega, k / 9, by omega, by omega⟩

theorem mem_scanned {x y k : Nat} (hx : x < 9) (hy : y < 9) :
    k ∈ rowColCells x y ++ subgridCells x y ↔ k < 81 ∧ related k (x + y * 9) := by
  rw [List.mem_append, mem_rowColCells hx hy, mem_subgridCells hx hy]
  have a1 : (x + y * 9) / 9 = y := by omega
  have a2 : (x + y * 9) % 9 = x := by omega
  unfold related
  rw [a1, a2]
  tauto

theorem validateCell_eq (g : Grid) (d : Nat) {x y : Nat} (hx : x < 9) (hy : y < 9) :
    validateCell g d x y = .ok (decide (free g ⟨x + y * 9, by omega⟩ d)) := by
  unfold validateCell
  rw [scanCells_inRange g d _ (fun k hk => ((mem_scanned hx hy).mp hk).1)]
  congr 1
  rw [decide_eq_decide]
  unfold free
  constructor
  · intro h k hr
    exact h k ((mem_scanned hx hy).mpr ⟨k.isLt, hr⟩)
  · intro h k hk
    exact h k ((mem_scanned hx hy).mp hk).2

theorem validateCell_at (g : Grid) (d : Nat) {i : Nat} (hi : i < 81) :
    validateCell g d (i % 9) (i / 9) = .ok (decide (free g ⟨i, hi⟩ d)) := by
  have h := validateCell_eq g d (x := i % 9) (y := i / 9) (by omega) (by omega)
  rw [h]
  have e : i % 9 + i / 9 * 9 = i := by omega
  simp only [e]

theorem searchNum_spec (g : Grid) {i : Nat} (hi : i < 81) (left num : Nat) :
    (∃ d, searchNum g (i % 9) (i / 9) left num = .ok (true, d) ∧ num ≤ d ∧ d < num + left ∧
        free g ⟨i, hi⟩ d ∧ ∀ e, num ≤ e → e < d → ¬ free g ⟨i, hi⟩ e) ∨
    (searchNum g (i % 9) (i / 9) left num = .ok (false, num + left) ∧
        ∀ e, num ≤ e → e < num + left → ¬ free g ⟨i, hi⟩ e) := by
  induction left generalizing num with
  | zero =>
    right
    exact ⟨rfl, fun e h1 h2 => by omega⟩
  | succ left ih =>
    rw [searchNum, validateCell_at g num hi]
    by_cases hf : free g ⟨i, hi⟩ num
    · left
      refine ⟨num, ?_, le_refl _, by omega, hf, fun e h1 h2 => by omega⟩
      simp [hf]
    · rcases ih (num + 1) with ⟨d, h1, h2, h3, h4, h5⟩ | ⟨h1, h2⟩
      · left
        refine ⟨d, ?_, by omega, by omega, h4, ?_⟩
        · simp [hf, h1]
        · intro e he1 he2
          rcases Nat.eq_or_lt_of_le he1 with h | h
          · subst h; exact hf
          · exact h5 e h he2
      · right
        refine ⟨?_, ?_⟩
        · simp [hf, h1]; omega
        · intro e he1 he2
          rcases Nat.eq_or_lt_of_le he1 with h | h
          · subst h; exact hf
          · exact h2 e h (by omega)

theorem decr_zero : decr 0 = U64 - 1 := by decide

theorem decr_succ (i : Nat) : decr (i + 1) = i := by
  simp [decr]

theorem whileFixed_ge (g : Grid) {j : Nat} (hj : 81 ≤ j) :
    whileFixed g j = .error .out_of_range := by
  cases j with
  | zero => omega
  | succ j => rw [whileFixed, arrAt_ge g hj]

theorem whileFixed_allFixed (g : Grid) (j : Nat) (hj : j < 81)
    (hall : ∀ m : Fin 81, m.val ≤ j → isFixed g m = true) :
    whileFixed g j = .error .out_of_range := by
  induction j with
  | zero =>
    have h0 := hall ⟨0, by omega⟩ (le_refl _)
    unfold isFixed at h0
    rw [whileFixed, arrAt_lt g hj]
    simp only [h0, if_true]
    rw [arrAt_ge g (by decide)]
  | succ j ih =>
    have h0 := hall ⟨j + 1, hj⟩ (le_refl _)
    unfold isFixed at h0
    rw [whileFixed, arrAt_lt g hj]
    simp only [h0, if_true]
    exact ih (by omega) (fun m hm => hall m (by omega))

theorem whileFixed_stop (g : Grid) (j : Nat) (hj : j < 81) (k : Fin 81) (hk : k.val ≤ j)
    (hfree : isFixed g k = false)
    (hbetween : ∀ m : Fin 81, k < m → m.val ≤ j → isFixed g m = true) :
    whileFixed g j = .ok k.val := by
  induction j with
  | zero =>
    have : k = ⟨0, hj⟩ := Fin.ext (Nat.le_zero.mp hk)
    subst this
    unfold isFixed at hfree
    rw [whileFixed, arrAt_lt g hj]
    simp only [hfree, Bool.false_eq_true, if_false]
  | succ j ih =>
    rcases Nat.eq_or_lt_of_le hk with h | h
    · have : k = ⟨j + 1, hj⟩ := Fin.ext h
      subst this
      unfold isFixed at hfree
      rw [whileFixed, arrAt_lt g hj]
      simp only [hfree, Bool.false_eq_true, if_false]
    · have h0 := hbetween ⟨j + 1, hj⟩ (by exact h) (le_refl _)
      unfold isFixed at h0
      rw [whileFixed, arrAt_lt g hj]
      simp only [h0, if_true]
      exact ih (by omega) (by omega) (fun m h1 h2 => hbetween m h1 (by omega))

theorem isFixed_setFirst (g : Grid) (i m : Fin 81) (v : Nat) :
    isFixed (g.set i (v, (g.get i).2)) m = isFixed g m := by
  unfold isFixed
  by_cases h : i = m
  · subst h; rw [Mathlib.Vector.get_set_same]
  · rw [Mathlib.Vector.get_set_of_ne h]

theorem val_setFirst_same (g : Grid) (i : Fin 81) (v : Nat) :
    val (g.set i (v, (g.get i).2)) i = v := by
  unfold val
  rw [Mathlib.Vector.get_set_same]

theorem val_setFirst_ne (g : Grid) {i m : Fin 81} (h : i ≠ m) (v : Nat) :
    val (g.set i (v, (g.get i).2)) m = val g m := by
  unfold val
  rw [Mathlib.Vector.get_set_of_ne h]

theorem exists_last_unfixed (g : Grid) (j : Nat) (hj : j < 81) :
    (∀ m : Fin 81, m.val ≤ j → isFixed g m = true) ∨
    ∃ k : Fin 81, k.val ≤ j ∧ isFixed g k = false ∧
      ∀ m : Fin 81, k < m → m.val ≤ j → isFixed g m = true := by
  induction j with
  | zero =>
    by_cases h : isFixed g ⟨0, hj⟩ = true
    · left
      intro m hm
      have : m = ⟨0, hj⟩ := Fin.ext (Nat.le_zero.mp hm)
      rw [this]; exact h
    · right
      refine ⟨⟨0, hj⟩, le_refl _, by simpa using h, ?_⟩
      intro m h1 h2
      exact absurd (Fin.lt_def.mp h1) (by simp; omega)
  | succ j ih =>
    by_cases h : isFixed g ⟨j + 1, hj⟩ = true
    · rcases ih (by omega) with hall | ⟨k, hk1, hk2, hk3⟩
      · left
        intro m hm
        rcases Nat.eq_or_lt_of_le hm with e | e
        · have : m = ⟨j + 1, hj⟩ := Fin.ext e
          rw [this]; exact h
        · exact hall m (by omega)
      · right
        refine ⟨k, by omega, hk2, ?_⟩
        intro m h1 h2
        rcases Nat.eq_or_lt_of_le h2 with e | e
        · have : m = ⟨j + 1, hj⟩ := Fin.ext e
          rw [this]; exact h
        · exact hk3 m h1 (by omega)
    · right
      refine ⟨⟨j + 1, hj⟩, le_refl _, by simpa using h, ?_⟩
      intro m h1 h2
      exact absurd (Fin.lt_def.mp h1) (by simp; omega)

theorem solveSudoku_done (s : State) (h : 81 ≤ s.index) : solveSudoku s = .ok (true, s) := by
  unfold solveSudoku
  rw [if_pos h]

theorem solveSudoku_fixed (s : State) (hi : s.index < 81)
    (hf : isFixed s.m_sudoku ⟨s.index, hi⟩ = true) :
    solveSudoku s = .ok (false, { s with index := s.index + 1 }) := by
  unfold isFixed at hf
  unfold solveSudoku
  rw [if_neg (by omega), arrAt_lt _ hi]
  simp only [hf, if_true]

theorem solveSudoku_unfixed (s : State) (hi : s.index < 81)
    (hf : isFixed s.m_sudoku ⟨s.index, hi⟩ = false) :
    solveSudoku s =
      match searchNum s.m_sudoku (s.index % 9) (s.index / 9)
          (10 - startNum s.m_numbers ⟨s.index, hi⟩) (startNum s.m_numbers ⟨s.index, hi⟩) with
      | .error e => .error e
      | .ok (true, num) => .ok (false, placeAt s ⟨s.index, hi⟩ num)
      | .ok (false, _) =>
        match whileFixed (s.m_sudoku.set ⟨s.index, hi⟩ (0, (s.m_sudoku.get ⟨s.index, hi⟩).2))
            (decr s.index) with
        | .error e => .error e
        | .ok j => .ok (false, clearAt s ⟨s.index, hi⟩ j) := by
  unfold isFixed at hf
  unfold solveSudoku
  rw [if_neg (by omega), arrAt_lt _ hi, arrAt_lt _ hi]
  simp only [hf, Bool.false_eq_true, if_false, setFirst, arrSet, dif_pos hi, startNum, placeAt,
    clearAt]

/-- The ways one call of `solveSudoku` goes when the index is on the board. -/
theorem solveSudoku_cases (s : State) (hi : s.index < 81) :
    (isFixed s.m_sudoku ⟨s.index, hi⟩ = true ∧
      solveSudoku s = .ok (false, { s with index := s.index + 1 })) ∨
    (isFixed s.m_sudoku ⟨s.index, hi⟩ = false ∧
      ∃ d, startNum s.m_numbers ⟨s.index, hi⟩ ≤ d ∧ d ≤ 9 ∧ free s.m_sudoku ⟨s.index, hi⟩ d ∧
        (∀ e, startNum s.m_numbers ⟨s.index, hi⟩ ≤ e → e < d → ¬ free s.m_sudoku ⟨s.index, hi⟩ e) ∧
        solveSudoku s = .ok (false, placeAt s ⟨s.index, hi⟩ d)) ∨
    (isFixed s.m_sudoku ⟨s.index, hi⟩ = false ∧
      (∀ e, startNum s.m_numbers ⟨s.index, hi⟩ ≤ e → e ≤ 9 → ¬ free s.m_sudoku ⟨s.index, hi⟩ e) ∧
      ∃ k : Fin 81, k.val < s.index ∧ isFixed s.m_sudoku k = false ∧
        (∀ m : Fin 81, k < m → m.val < s.index → isFixed s.m_sudoku m = true) ∧
        solveSudoku s = .ok (false, clearAt s ⟨s.index, hi⟩ k.val)) ∨
    (isFixed s.m_sudoku ⟨s.index, hi⟩ = false ∧
      (∀ e, startNum s.m_numbers ⟨s.index, hi⟩ ≤ e → e ≤ 9 → ¬ free s.m_sudoku ⟨s.index, hi⟩ e) ∧
      (∀ m : Fin 81, m.val < s.index → isFixed s.m_sudoku m = true) ∧
      solveSudoku s = .error .out_of_range) := by
  by_cases hf : isFixed s.m_sudoku ⟨s.index, hi⟩ = true
  · exact Or.inl ⟨hf, solveSudoku_fixed s hi hf⟩
  · have hf2 : isFixed s.m_sudoku ⟨s.index, hi⟩ = false := by simpa using hf
    right
    rcases searchNum_spec s.m_sudoku hi (10 - startNum s.m_numbers ⟨s.index, hi⟩)
        (startNum s.m_numbers ⟨s.index, hi⟩) with ⟨d, h1, h2, h3, h4, h5⟩ | ⟨h1, h2⟩
    · left
      refine ⟨hf2, d, h2, by omega, h4, h5, ?_⟩
      rw [solveSudoku_unfixed s hi hf2, h1]
    · right
      have hnone : ∀ e, startNum s.m_numbers ⟨s.index, hi⟩ ≤ e → e ≤ 9 →
          ¬ free s.m_sudoku ⟨s.index, hi⟩ e := fun e he1 he2 => h2 e he1 (by omega)
      have hstep := solveSudoku_unfixed s hi hf2
      rw [h1] at hstep
      simp only [] at hstep
      rcases Nat.eq_zero_or_pos s.index with h0 | hpos
      · right
        refine ⟨hf2, hnone, fun m hm => by omega, ?_⟩
        have hd : decr s.index = U64 - 1 := by rw [h0]; exact decr_zero
        rw [hstep, hd, whileFixed_ge _ (by decide)]
      · obtain ⟨j, hj⟩ : ∃ j, s.index = j + 1 := ⟨s.index - 1, by omega⟩
        have hd : decr s.index = j := by rw [hj]; exact decr_succ j
        rw [hd] at hstep
        rcases exists_last_unfixed s.m_sudoku j (by omega) with hall | ⟨k, hk1, hk2, hk3⟩
        · right
          refine ⟨hf2, hnone, fun m hm => hall m (by omega), ?_⟩
          rw [hstep, whileFixed_allFixed _ j (by omega)
            (fun m hm => by rw [isFixed_setFirst]; exact hall m hm)]
        · left
          refine ⟨hf2, hnone, k, by omega, hk2, fun m h1 h2 => hk3 m h1 (by omega), ?_⟩
          rw [hstep, whileFixed_stop _ j (by omega) k hk1 (by rw [isFixed_setFirst]; exact hk2)
            (fun m h1 h2 => by rw [isFixed_setFirst]; exact hk3 m h1 h2)]

theorem solveSudoku_ok_cases (s : State) (hi : s.index < 81) (b : Bool) (t : State)
    (h : solveSudoku s = .ok (b, t)) :
    b = false ∧
    ((isFixed s.m_sudoku ⟨s.index, hi⟩ = true ∧ t = { s with index := s.index + 1 }) ∨
     (isFixed s.m_sudoku ⟨s.index, hi⟩ = false ∧
      ∃ d, startNum s.m_numbers ⟨s.index, hi⟩ ≤ d ∧ d ≤ 9 ∧ free s.m_sudoku ⟨s.index, hi⟩ d ∧
        (∀ e, startNum s.m_numbers ⟨s.index, hi⟩ ≤ e → e < d → ¬ free s.m_sudoku ⟨s.index, hi⟩ e) ∧
        t = placeAt s ⟨s.index, hi⟩ d) ∨
     (isFixed s.m_sudoku ⟨s.index, hi⟩ = false ∧
      (∀ e, startNum s.m_numbers ⟨s.index, hi⟩ ≤ e → e ≤ 9 → ¬ free s.m_sudoku ⟨s.index, hi⟩ e) ∧
      ∃ k : Fin 81, k.val < s.index ∧ isFixed s.m_sudoku k = false ∧
        (∀ m : Fin 81, k < m → m.val < s.index → isFixed s.m_sudoku m = true) ∧
        t = clearAt s ⟨s.index, hi⟩ k.val)) := by
  rcases solveSudoku_cases s hi with ⟨h1, h2⟩ | ⟨h1, d, h2, h3, h4, h5, h6⟩ |
      ⟨h1, h2, k, h3, h4, h5, h6⟩ | ⟨h1, h2, h3, h4⟩
  · rw [h2] at h
    injection h with h
    injection h with hb ht
    exact ⟨hb.symm, Or.inl ⟨h1, ht.symm⟩⟩
  · rw [h6] at h
    injection h with h
    injection h with hb ht
    exact ⟨hb.symm, Or.inr (Or.inl ⟨h1, d, h2, h3, h4, h5, ht.symm⟩)⟩
  · rw [h6] at h
    injection h with h
    injection h with hb ht
    exact ⟨hb.symm, Or.inr (Or.inr ⟨h1, h2, k, h3, h4, h5, ht.symm⟩)⟩
  · rw [h4] at h
    cases h

theorem startNum_pos (m : Numbers) (i : Fin 81) : 1 ≤ startNum m i := by
  unfold startNum
  split <;> omega

theorem startNum_le (m : Numbers) (i : Fin 81) : m.get i ≤ startNum m i := by
  unfold startNum
  split <;> omega

theorem Inv_start (s : State) (hs : Start s) : Inv s.m_sudoku s where
  idx_le := by rw [hs.idx]; omega
  flags := fun _ => rfl
  fixedVal := fun _ _ => rfl
  eq_num := fun j hj => by rw [hs.empty j hj, hs.nums j]
  le9 := fun j hj => by rw [hs.empty j hj]; omega
  after := fun j hj _ => hs.empty j hj
  before := fun j _ hlt => by rw [hs.idx] at hlt; omega

theorem Inv_skip (g0 : Grid) (s : State) (hi : s.index < 81) (hinv : Inv g0 s)
    (hf : isFixed s.m_sudoku ⟨s.index, hi⟩ = true) :
    Inv g0 { s with index := s.index + 1 } where
  idx_le := by show s.index + 1 ≤ 81; omega
  flags := hinv.flags
  fixedVal := hinv.fixedVal
  eq_num := hinv.eq_num
  le9 := hinv.le9
  after := fun j hj hlt => hinv.after j hj (by
    have : s.index + 1 < j.val := hlt
    omega)
  before := fun j hj hlt => by
    have hlt2 : j.val < s.index + 1 := hlt
    have hne : j.val ≠ s.index := by
      intro e
      have : j = ⟨s.index, hi⟩ := Fin.ext e
      rw [this, ← hinv.flags, hf] at hj
      cases hj
    exact hinv.before j hj (by omega)

theorem placedOK_congr (g h : Grid) (j : Fin 81)
    (hflag : ∀ k : Fin 81, isFixed h k = isFixed g k)
    (hsame : ∀ k : Fin 81, (isFixed g k = true ∨ k ≤ j) → val h k = val g k)
    (hok : placedOK g j) : placedOK h j := by
  intro k hk hrel hcase
  rw [hflag] at hcase
  rw [hsame k (by rcases hcase with c | c; exact Or.inl c; exact Or.inr (le_of_lt c)),
    hsame j (Or.inr (le_refl _))]
  exact hok k hk hrel hcase

theorem Inv_place (g0 : Grid) (s : State) (hi : s.index < 81) (hinv : Inv g0 s)
    (hf : isFixed s.m_sudoku ⟨s.index, hi⟩ = false) (d : Nat)
    (h1 : 1 ≤ d) (h2 : d ≤ 9) (hfree : free s.m_sudoku ⟨s.index, hi⟩ d) :
    Inv g0 (placeAt s ⟨s.index, hi⟩ d) where
  idx_le := by show s.index + 1 ≤ 81; omega
  flags := fun j => by
    show isFixed (s.m_sudoku.set _ _) j = _
    rw [isFixed_setFirst]; exact hinv.flags j
  fixedVal := fun j hj => by
    show val (s.m_sudoku.set _ _) j = _
    have hne : (⟨s.index, hi⟩ : Fin 81) ≠ j := by
      intro e
      rw [← e, ← hinv.flags, hf] at hj
      cases hj
    rw [val_setFirst_ne _ hne]; exact hinv.fixedVal j hj
  eq_num := fun j hj => by
    show val (s.m_sudoku.set _ _) j = (s.m_numbers.set _ _).get j
    by_cases e : (⟨s.index, hi⟩ : Fin 81) = j
    · subst e
      rw [val_setFirst_same, Mathlib.Vector.get_set_same]
    · rw [val_setFirst_ne _ e, Mathlib.Vector.get_set_of_ne e]; exact hinv.eq_num j hj
  le9 := fun j hj => by
    show val (s.m_sudoku.set _ _) j ≤ 9
    by_cases e : (⟨s.index, hi⟩ : Fin 81) = j
    · subst e
      rw [val_setFirst_same]; exact h2
    · rw [val_setFirst_ne _ e]; exact hinv.le9 j hj
  after := fun j hj hlt => by
    have hlt2 : s.index + 1 < j.val := hlt
    show val (s.m_sudoku.set _ _) j = 0
    have e : (⟨s.index, hi⟩ : Fin 81) ≠ j := by
      intro e
      rw [← e] at hlt2
      simp at hlt2
    rw [val_setFirst_ne _ e]; exact hinv.after j hj (by omega)
  before := fun j hj hlt => by
    have hlt2 : j.val < s.index + 1 := hlt
    show 1 ≤ val (s.m_sudoku.set _ _) j ∧ placedOK (s.m_sudoku.set _ _) j
    by_cases e : (⟨s.index, hi⟩ : Fin 81) = j
    · subst e
      rw [val_setFirst_same]
      refine ⟨h1, ?_⟩
      intro k hk hrel _
      rw [val_setFirst_same, val_setFirst_ne _ (Ne.symm hk)]
      exact hfree k hrel
    · have hjlt : j.val < s.index := by
        have : j.val ≠ s.index := fun c => e (Fin.ext c.symm)
        omega
      rw [val_setFirst_ne _ e]
      refine ⟨(hinv.before j hj hjlt).1, ?_⟩
      apply placedOK_congr s.m_sudoku _ j (fun k => isFixed_setFirst _ _ _ _) _
        (hinv.before j hj hjlt).2
      intro k hk
      have hne : (⟨s.index, hi⟩ : Fin 81) ≠ k := by
        intro c
        subst c
        rcases hk with c | c
        · rw [hf] at c; cases c
        · have : s.index ≤ j.val := c
          omega
      exact val_setFirst_ne _ hne _

theorem Inv_clear (g0 : Grid) (s : State) (hi : s.index < 81) (hinv : Inv g0 s)
    (hf : isFixed s.m_sudoku ⟨s.index, hi⟩ = false) (k : Fin 81) (hk : k.val < s.index)
    (hbetween : ∀ m : Fin 81, k < m → m.val < s.index → isFixed s.m_sudoku m = true) :
    Inv g0 (clearAt s ⟨s.index, hi⟩ k.val) where
  idx_le := by show k.val ≤ 81; omega
  flags := fun j => by
    show isFixed (s.m_sudoku.set _ _) j = _
    rw [isFixed_setFirst]; exact hinv.flags j
  fixedVal := fun j hj => by
    show val (s.m_sudoku.set _ _) j = _
    have hne : (⟨s.index, hi⟩ : Fin 81) ≠ j := by
      intro e
      rw [← e, ← hinv.flags, hf] at hj
      cases hj
    rw [val_setFirst_ne _ hne]; exact hinv.fixedVal j hj
  eq_num := fun j hj => by
    show val (s.m_sudoku.set _ _) j = (s.m_numbers.set _ _).get j
    by_cases e : (⟨s.index, hi⟩ : Fin 81) = j
    · subst e
      rw [val_setFirst_same, Mathlib.Vector.get_set_same]
    · rw [val_setFirst_ne _ e, Mathlib.Vector.get_set_of_ne e]; exact hinv.eq_num j hj
  le9 := fun j hj => by
    show val (s.m_sudoku.set _ _) j ≤ 9
    by_cases e : (⟨s.index, hi⟩ : Fin 81) = j
    · subst e
      rw [val_setFirst_same]; omega
    · rw [val_setFirst_ne _ e]; exact hinv.le9 j hj
  after := fun j hj hlt => by
    have hlt2 : k.val < j.val := hlt
    show val (s.m_sudoku.set _ _) j = 0
    by_cases e : (⟨s.index, hi⟩ : Fin 81) = j
    · subst e
      rw [val_setFirst_same]
    · rw [val_setFirst_ne _ e]
      have hne : j.val ≠ s.index := fun c => e (Fin.ext c.symm)
      have hge : ¬ j.val < s.index := by
        intro c
        have := hbetween j (Fin.lt_def.mpr hlt2) c
        rw [hinv.flags, hj] at this
        cases this
      exact hinv.after j hj (by omega)
  before := fun j hj hlt => by
    have hlt2 : j.val < k.val := hlt
    show 1 ≤ val (s.m_sudoku.set _ _) j ∧ placedOK (s.m_sudoku.set _ _) j
    have e : (⟨s.index, hi⟩ : Fin 81) ≠ j := by
      intro c
      rw [← c] at hlt2
      simp at hlt2
      omega
    rw [val_setFirst_ne _ e]
    refine ⟨(hinv.before j hj (by omega)).1, ?_⟩
    apply placedOK_congr s.m_sudoku _ j (fun k => isFixed_setFirst _ _ _ _) _
      (hinv.before j hj (by omega)).2
    intro m hm
    have hne : (⟨s.index, hi⟩ : Fin 81) ≠ m := by
      intro c
      subst c
      rcases hm with c | c
      · rw [hf] at c; cases c
      · have : s.index ≤ j.val := c
        omega
    exact val_setFirst_ne _ hne _

theorem Inv_step (g0 : Grid) (s t : State) (b : Bool) (hinv : Inv g0 s)
    (h : solveSudoku s = .ok (b, t)) : Inv g0 t := by
  by_cases hi : s.index < 81
  · rcases (solveSudoku_ok_cases s hi b t h).2 with ⟨h1, rfl⟩ | ⟨h1, d, h2, h3, h4, _, rfl⟩ |
        ⟨h1, _, k, h3, _, h5, rfl⟩
    · exact Inv_skip g0 s hi hinv h1
    · exact Inv_place g0 s hi hinv h1 d (le_trans (startNum_pos _ _) h2) h3 h4
    · exact Inv_clear g0 s hi hinv h1 k h3 h5
  · rw [solveSudoku_done s (by omega)] at h
    injection h with h
    injection h with _ ht
    rw [← ht]; exact hinv

theorem solveSteps_succ_of_ok (n : Nat) (s t : State) (b : Bool)
    (h : solveSudoku s = .ok (b, t)) : solveSteps (n + 1) s = solveSteps n t := by
  rw [solveSteps, h]

theorem Inv_steps (g0 : Grid) (n : Nat) (s t : State) (hinv : Inv g0 s)
    (h : solveSteps n s = .ok t) : Inv g0 t := by
  induction n generalizing s with
  | zero =>
    rw [solveSteps] at h
    injection h with h
    rw [← h]; exact hinv
  | succ n ih =>
    rw [solveSteps] at h
    cases hs : solveSudoku s with
    | error e => rw [hs] at h; cases h
    | ok r =>
      obtain ⟨b, u⟩ := r
      rw [hs] at h
      exact ih u (Inv_step g0 s u b hinv hs) h

theorem related_symm {i j : Nat} (h : related i j) : related j i := by
  unfold related at *
  omega

theorem cursor_candidate (g0 g : Grid) (s : State) (hinv : Inv g0 s) (hnm : NoMissed g0 s)
    (hi : s.index < 81) (hf : isFixed s.m_sudoku ⟨s.index, hi⟩ = false)
    (hc : Completion g0 g)
    (hagree : ∀ k : Fin 81, k.val < s.index → val g k = val s.m_sudoku k) :
    startNum s.m_numbers ⟨s.index, hi⟩ ≤ val g ⟨s.index, hi⟩ ∧ val g ⟨s.index, hi⟩ ≤ 9 ∧
      free s.m_sudoku ⟨s.index, hi⟩ (val g ⟨s.index, hi⟩) := by
  have hf0 : isFixed g0 ⟨s.index, hi⟩ = false := by rw [← hinv.flags]; exact hf
  have hdig := hc.digits ⟨s.index, hi⟩ hf0
  have hlt : val s.m_sudoku ⟨s.index, hi⟩ < val g ⟨s.index, hi⟩ :=
    (hnm g hc ⟨s.index, hi⟩ hf0 (le_refl _) (fun k hk => hagree k hk)).2 rfl
  refine ⟨?_, hdig.2, ?_⟩
  · unfold startNum
    rw [← hinv.eq_num _ hf0]
    split <;> omega
  · intro k hrel heq
    by_cases hki : k = ⟨s.index, hi⟩
    · subst hki
      omega
    · have hne : val g ⟨s.index, hi⟩ ≠ val g k :=
        hc.norepeat ⟨s.index, hi⟩ k (Ne.symm hki) (related_symm hrel) (by omega)
      by_cases hkf : isFixed g0 k = true
      · rw [hc.fixedSame k hkf, ← hinv.fixedVal k hkf] at hne
        exact hne heq.symm
      · have hkf2 : isFixed g0 k = false := by simpa using hkf
        rcases Nat.lt_or_ge k.val s.index with c | c
        · rw [hagree k c] at hne
          exact hne heq.symm
        · have hgt : s.index < k.val := by
            have : k.val ≠ s.index := fun e => hki (Fin.ext e)
            omega
          rw [hinv.after k hkf2 hgt] at heq
          omega

theorem NoMissed_start (s : State) (hs : Start s) : NoMissed s.m_sudoku s := by
  intro g hc j hj hle _
  rw [hs.idx] at hle
  refine ⟨fun h => by rw [hs.idx] at h; omega, fun _ => ?_⟩
  rw [hs.empty j hj]
  exact (hc.digits j hj).1

theorem NoMissed_skip (g0 : Grid) (s : State) (hi : s.index < 81) (hinv : Inv g0 s)
    (hnm : NoMissed g0 s) (hf : isFixed s.m_sudoku ⟨s.index, hi⟩ = true) :
    NoMissed g0 { s with index := s.index + 1 } := by
  intro g hc j hj hle hagree
  have hle2 : j.val ≤ s.index + 1 := hle
  have hne : j.val ≠ s.index := by
    intro e
    have : j = ⟨s.index, hi⟩ := Fin.ext e
    rw [this, ← hinv.flags, hf] at hj
    cases hj
  constructor
  · intro hlt
    have hlt2 : j.val < s.index + 1 := hlt
    exact (hnm g hc j hj (by omega) hagree).1 (by omega)
  · intro heq
    have heq2 : j.val = s.index + 1 := heq
    show val s.m_sudoku j < val g j
    rw [hinv.after j hj (by omega)]
    exact (hc.digits j hj).1

theorem NoMissed_place (g0 : Grid) (s : State) (hi : s.index < 81) (hinv : Inv g0 s)
    (hnm : NoMissed g0 s) (hf : isFixed s.m_sudoku ⟨s.index, hi⟩ = false) (d : Nat)
    (hleast : ∀ e, startNum s.m_numbers ⟨s.index, hi⟩ ≤ e → e < d →
      ¬ free s.m_sudoku ⟨s.index, hi⟩ e) :
    NoMissed g0 (placeAt s ⟨s.index, hi⟩ d) := by
  intro g hc j hj hle hagree
  have hle2 : j.val ≤ s.index + 1 := hle
  have hagree2 : ∀ k : Fin 81, k < j → k.val < s.index → val g k = val s.m_sudoku k := by
    intro k hk hks
    have hne : (⟨s.index, hi⟩ : Fin 81) ≠ k := by
      intro c; rw [← c] at hks; simp at hks
    have := hagree k hk
    rwa [show (placeAt s ⟨s.index, hi⟩ d).m_sudoku = s.m_sudoku.set ⟨s.index, hi⟩
      (d, (s.m_sudoku.get ⟨s.index, hi⟩).2) from rfl, val_setFirst_ne _ hne] at this
  show (j.val < s.index + 1 → val (s.m_sudoku.set _ _) j ≤ val g j) ∧
    (j.val = s.index + 1 → val (s.m_sudoku.set _ _) j < val g j)
  by_cases e : (⟨s.index, hi⟩ : Fin 81) = j
  · subst e
    rw [val_setFirst_same]
    refine ⟨fun _ => ?_, fun c => by simp at c⟩
    have hcand := cursor_candidate g0 g s hinv hnm hi hf hc
      (fun k hk => hagree2 k (Fin.lt_def.mpr hk) hk)
    by_contra hlt
    exact hleast _ hcand.1 (by omega) hcand.2.2
  · rw [val_setFirst_ne _ e]
    have hne : j.val ≠ s.index := fun c => e (Fin.ext c.symm)
    constructor
    · intro hlt
      exact (hnm g hc j hj (by omega)
        (fun k hk => hagree2 k hk (by have := Fin.lt_def.mp hk; omega))).1 (by omega)
    · intro heq
      rw [hinv.after j hj (by omega)]
      exact (hc.digits j hj).1

theorem NoMissed_clear (g0 : Grid) (s : State) (hi : s.index < 81) (hinv : Inv g0 s)
    (hnm : NoMissed g0 s) (hf : isFixed s.m_sudoku ⟨s.index, hi⟩ = false)
    (hnone : ∀ e, startNum s.m_numbers ⟨s.index, hi⟩ ≤ e → e ≤ 9 →
      ¬ free s.m_sudoku ⟨s.index, hi⟩ e)
    (k : Fin 81) (hk : k.val < s.index)
    (hbetween : ∀ m : Fin 81, k < m → m.val < s.index → isFixed s.m_sudoku m = true) :
    NoMissed g0 (clearAt s ⟨s.index, hi⟩ k.val) := by
  intro g hc j hj hle hagree
  have hle2 : j.val ≤ k.val := hle
  have hval : ∀ m : Fin 81, m.val < s.index →
      val (clearAt s ⟨s.index, hi⟩ k.val).m_sudoku m = val s.m_sudoku m := by
    intro m hm
    have hne : (⟨s.index, hi⟩ : Fin 81) ≠ m := by
      intro c; rw [← c] at hm; simp at hm
    exact val_setFirst_ne _ hne _
  have hagree2 : ∀ m : Fin 81, m < j → val g m = val s.m_sudoku m := by
    intro m hm
    rw [← hval m (by have := Fin.lt_def.mp hm; omega)]
    exact hagree m hm
  rw [hval j (by omega)]
  have hold := hnm g hc j hj (by omega) hagree2
  refine ⟨fun hlt => hold.1 (by have : j.val < k.val := hlt; omega), fun heq => ?_⟩
  have heq2 : j.val = k.val := heq
  have hjk : j = k := Fin.ext heq2
  subst hjk
  have hle3 := hold.1 hk
  by_contra hnot
  have heqv : val g j = val s.m_sudoku j := by omega
  have hall : ∀ m : Fin 81, m.val < s.index → val g m = val s.m_sudoku m := by
    intro m hm
    rcases lt_trichotomy m j with c | c | c
    · exact hagree2 m c
    · rw [c]; exact heqv
    · have hmf := hbetween m c hm
      rw [hinv.flags] at hmf
      rw [hc.fixedSame m hmf, hinv.fixedVal m hmf]
  have hcand := cursor_candidate g0 g s hinv hnm hi hf hc hall
  exact hnone _ hcand.1 hcand.2.1 hcand.2.2

theorem NoMissed_step (g0 : Grid) (s t : State) (b : Bool) (hinv : Inv g0 s)
    (hnm : NoMissed g0 s) (h : solveSudoku s = .ok (b, t)) : NoMissed g0 t := by
  by_cases hi : s.index < 81
  · rcases (solveSudoku_ok_cases s hi b t h).2 with ⟨h1, rfl⟩ | ⟨h1, d, _, _, _, h5, rfl⟩ |
        ⟨h1, h2, k, h3, _, h5, rfl⟩
    · exact NoMissed_skip g0 s hi hinv hnm h1
    · exact NoMissed_place g0 s hi hinv hnm h1 d h5
    · exact NoMissed_clear g0 s hi hinv hnm h1 h2 k h3 h5
  · rw [solveSudoku_done s (by omega)] at h
    injection h with h
    injection h with _ ht
    rw [← ht]; exact hnm

theorem NoMissed_steps (g0 : Grid) (n : Nat) (s t : State) (hinv : Inv g0 s)
    (hnm : NoMissed g0 s) (h : solveSteps n s = .ok t) : NoMissed g0 t := by
  induction n generalizing s with
  | zero =>
    rw [solveSteps] at h
    injection h with h
    rw [← h]; exact hnm
  | succ n ih =>
    rw [solveSteps] at h
    cases hs : solveSudoku s with
    | error e => rw [hs] at h; cases h
    | ok r =>
      obtain ⟨b, u⟩ := r
      rw [hs] at h
      exact ih u (Inv_step g0 s u b hinv hs) (NoMissed_step g0 s u b hinv hnm hs) h

theorem no_completion_of_abandon (g0 : Grid) (s : State) (hinv : Inv g0 s)
    (hnm : NoMissed g0 s) (hab : Abandons s) : ¬ ∃ g : Grid, Completion g0 g := by
  rintro ⟨g, hc⟩
  obtain ⟨hi, hf, hnone, hall⟩ := hab
  have hagree : ∀ k : Fin 81, k.val < s.index → val g k = val s.m_sudoku k := by
    intro k hk
    have hkf := hall k hk
    rw [hinv.flags] at hkf
    rw [hc.fixedSame k hkf, hinv.fixedVal k hkf]
  have hcand := cursor_candidate g0 g s hinv hnm hi hf hc hagree
  apply hnone _ hcand.1 hcand.2.1
  rw [validateCell_at _ _ hi]
  simp [hcand.2.2]

theorem abandons_iff_error (s : State) :
    Abandons s ↔ solveSudoku s = .error .out_of_range := by
  constructor
  · rintro ⟨hi, hf, hnone, hall⟩
    rcases solveSudoku_cases s hi with ⟨h1, _⟩ | ⟨_, d, h2, h3, h4, _, _⟩ |
        ⟨_, _, k, h3, h4, _, _⟩ | ⟨_, _, _, h4⟩
    · rw [hf] at h1; cases h1
    · exfalso
      apply hnone d h2 h3
      rw [validateCell_at _ _ hi]
      simp [h4]
    · rw [hall k h3] at h4; cases h4
    · exact h4
  · intro herr
    have hi : s.index < 81 := by
      rcases Nat.lt_or_ge s.index 81 with c | c
      · exact c
      · rw [solveSudoku_done s c] at herr; cases herr
    rcases solveSudoku_cases s hi with ⟨_, h2⟩ | ⟨_, d, _, _, _, _, h6⟩ |
        ⟨_, _, k, _, _, _, h6⟩ | ⟨h1, h2, h3, _⟩
    · rw [h2] at herr; cases herr
    · rw [h6] at herr; cases herr
    · rw [h6] at herr; cases herr
    · refine ⟨hi, h1, ?_, h3⟩
      intro e he1 he2
      rw [validateCell_at _ _ hi]
      simp [h2 e he1 he2]

theorem progressLt_wf : WellFounded progressLt := by
  unfold progressLt
  apply Pi.Lex.wellFounded
  intro _
  apply Subrelation.wf (r := InvImage (fun a b : Nat => a < b) (fun x : Nat => 20 - x))
  · intro x y h
    show 20 - x < 20 - y
    omega
  · exact InvImage.wf _ Nat.lt_wfRel.wf

theorem free_self_ne (g : Grid) (i : Fin 81) (d : Nat) (h : free g i d) : val g i ≠ d :=
  h i (Or.inl rfl)

theorem dig_skip (s : State) (hi : s.index < 81)
    (hf : isFixed s.m_sudoku ⟨s.index, hi⟩ = true) :
    progressLt (dig { s with index := s.index + 1 }) (dig s) := by
  refine ⟨⟨s.index, hi⟩, ?_, ?_⟩
  · intro k hk
    have hk2 : k.val < s.index := hk
    unfold dig
    show (if isFixed s.m_sudoku k = true then (if k.val < s.index + 1 then 1 else 0)
      else 2 * s.m_numbers.get k + (if k.val = s.index + 1 then 1 else 0)) = _
    have h1 : k.val < s.index + 1 := by omega
    have h2 : k.val ≠ s.index + 1 := by omega
    have h3 : k.val ≠ s.index := by omega
    simp only [h1, hk2, h2, h3, if_true, if_false]
  · have hnew : dig { s with index := s.index + 1 } ⟨s.index, hi⟩ = 1 := by
      unfold dig
      show (if isFixed s.m_sudoku ⟨s.index, hi⟩ = true then
        (if s.index < s.index + 1 then 1 else 0) else _) = 1
      simp only [hf, if_true, Nat.lt_succ_self]
    have hold : dig s ⟨s.index, hi⟩ = 0 := by
      unfold dig
      simp only [hf, if_true, lt_irrefl, if_false]
    show dig s ⟨s.index, hi⟩ < dig { s with index := s.index + 1 } ⟨s.index, hi⟩ ∧
      dig { s with index := s.index + 1 } ⟨s.index, hi⟩ ≤ 19
    rw [hnew, hold]
    omega

theorem dig_place (g0 : Grid) (s : State) (hi : s.index < 81) (hinv : Inv g0 s)
    (hf : isFixed s.m_sudoku ⟨s.index, hi⟩ = false) (d : Nat)
    (h1 : startNum s.m_numbers ⟨s.index, hi⟩ ≤ d) (h2 : d ≤ 9)
    (hfree : free s.m_sudoku ⟨s.index, hi⟩ d) :
    progressLt (dig (placeAt s ⟨s.index, hi⟩ d)) (dig s) := by
  have hf0 : isFixed g0 ⟨s.index, hi⟩ = false := by rw [← hinv.flags]; exact hf
  have hc : s.m_numbers.get ⟨s.index, hi⟩ < d := by
    have hne := free_self_ne _ _ _ hfree
    rw [hinv.eq_num _ hf0] at hne
    have hle := startNum_le s.m_numbers ⟨s.index, hi⟩
    omega
  refine ⟨⟨s.index, hi⟩, ?_, ?_⟩
  · intro k hk
    have hk2 : k.val < s.index := hk
    have hne : (⟨s.index, hi⟩ : Fin 81) ≠ k := by
      intro c; rw [← c] at hk2; simp at hk2
    unfold dig
    show (if isFixed (s.m_sudoku.set _ _) k = true then (if k.val < s.index + 1 then 1 else 0)
      else 2 * (s.m_numbers.set _ _).get k + (if k.val = s.index + 1 then 1 else 0)) = _
    rw [isFixed_setFirst, Mathlib.Vector.get_set_of_ne hne]
    have h1 : k.val < s.index + 1 := by omega
    have h2 : k.val ≠ s.index + 1 := by omega
    have h3 : k.val ≠ s.index := by omega
    simp only [h1, hk2, h2, h3, if_true, if_false]
  · have hnew : dig (placeAt s ⟨s.index, hi⟩ d) ⟨s.index, hi⟩ = 2 * d := by
      unfold dig
      show (if isFixed (s.m_sudoku.set _ _) ⟨s.index, hi⟩ = true then _
        else 2 * (s.m_numbers.set _ _).get ⟨s.index, hi⟩ +
          (if s.index = s.index + 1 then 1 else 0)) = 2 * d
      rw [isFixed_setFirst, Mathlib.Vector.get_set_same]
      have : s.index ≠ s.index + 1 := by omega
      simp only [hf, Bool.false_eq_true, if_false, this, Nat.add_zero]
    have hold : dig s ⟨s.index, hi⟩ = 2 * s.m_numbers.get ⟨s.index, hi⟩ + 1 := by
      unfold dig
      simp only [hf, Bool.false_eq_true, if_false, if_true]
    show dig s ⟨s.index, hi⟩ < dig (placeAt s ⟨s.index, hi⟩ d) ⟨s.index, hi⟩ ∧
      dig (placeAt s ⟨s.index, hi⟩ d) ⟨s.index, hi⟩ ≤ 19
    rw [hnew, hold]
    omega

theorem dig_clear (g0 : Grid) (s : State) (hi : s.index < 81) (hinv : Inv g0 s)
    (k : Fin 81) (hk : k.val < s.index) (hkf : isFixed s.m_sudoku k = false) :
    progressLt (dig (clearAt s ⟨s.index, hi⟩ k.val)) (dig s) := by
  have hkf0 : isFixed g0 k = false := by rw [← hinv.flags]; exact hkf
  have h9 : s.m_numbers.get k ≤ 9 := by
    rw [← hinv.eq_num k hkf0]; exact hinv.le9 k hkf0
  have hnek : (⟨s.index, hi⟩ : Fin 81) ≠ k := by
    intro c; rw [← c] at hk; simp at hk
  refine ⟨k, ?_, ?_⟩
  · intro m hm
    have hm2 : m.val < k.val := hm
    have hne : (⟨s.index, hi⟩ : Fin 81) ≠ m := by
      intro c; rw [← c] at hm2; simp at hm2; omega
    unfold dig
    show (if isFixed (s.m_sudoku.set _ _) m = true then (if m.val < k.val then 1 else 0)
      else 2 * (s.m_numbers.set _ _).get m + (if m.val = k.val then 1 else 0)) = _
    rw [isFixed_setFirst, Mathlib.Vector.get_set_of_ne hne]
    have h1 : m.val < s.index := by omega
    have h2 : m.val ≠ k.val := by omega
    have h3 : m.val ≠ s.index := by omega
    simp only [h1, hm2, h2, h3, if_true, if_false]
  · have h3 : k.val ≠ s.index := by omega
    have hnew : dig (clearAt s ⟨s.index, hi⟩ k.val) k = 2 * s.m_numbers.get k + 1 := by
      unfold dig
      show (if isFixed (s.m_sudoku.set _ _) k = true then _
        else 2 * (s.m_numbers.set _ _).get k + (if k.val = k.val then 1 else 0)) = _
      rw [isFixed_setFirst, Mathlib.Vector.get_set_of_ne hnek]
      simp only [hkf, Bool.false_eq_true, if_false, if_true]
    have hold : dig s k = 2 * s.m_numbers.get k := by
      unfold dig
      simp only [hkf, Bool.false_eq_true, if_false, h3, Nat.add_zero]
    show dig s k < dig (clearAt s ⟨s.index, hi⟩ k.val) k ∧
      dig (clearAt s ⟨s.index, hi⟩ k.val) k ≤ 19
    rw [hnew, hold]
    omega

theorem dig_step (g0 : Grid) (s t : State) (b : Bool) (hinv : Inv g0 s) (hi : s.index < 81)
    (h : solveSudoku s = .ok (b, t)) : progressLt (dig t) (dig s) := by
  rcases (solveSudoku_ok_cases s hi b t h).2 with ⟨h1, rfl⟩ | ⟨h1, d, h2, h3, h4, _, rfl⟩ |
      ⟨_, _, k, h3, h4, _, rfl⟩
  · exact dig_skip s hi h1
  · exact dig_place g0 s hi hinv h1 d h2 h3 h4
  · exact dig_clear g0 s hi hinv k h3 h4

theorem search_stops (g0 : Grid) (s : State) (hinv : Inv g0 s) :
    ∃ n t, solveSteps n s = .ok t ∧ (t.index = 81 ∨ Abandons t) := by
  revert hinv
  refine (InvImage.wf dig progressLt_wf).induction
    (C := fun s => Inv g0 s → ∃ n t, solveSteps n s = .ok t ∧ (t.index = 81 ∨ Abandons t)) s ?_
  intro s ih hinv
  by_cases hi : s.index < 81
  · cases hs : solveSudoku s with
    | error e =>
      cases e
      exact ⟨0, s, rfl, Or.inr ((abandons_iff_error s).mpr hs)⟩
    | ok r =>
      obtain ⟨b, u⟩ := r
      obtain ⟨n, t, hn, ht⟩ := ih u (dig_step g0 s u b hinv hi hs) (Inv_step g0 s u b hinv hs)
      exact ⟨n + 1, t, by rw [solveSteps_succ_of_ok n s u b hs]; exact hn, ht⟩
  · exact ⟨0, s, rfl, Or.inl (by have := hinv.idx_le; omega)⟩

theorem val_set_same (g : Grid) (i : Fin 81) (p : Nat × Bool) : val (g.set i p) i = p.1 := by
  unfold val
  rw [Mathlib.Vector.get_set_same]

theorem val_set_ne (g : Grid) {i m : Fin 81} (h : i ≠ m) (p : Nat × Bool) :
    val (g.set i p) m = val g m := by
  unfold val
  rw [Mathlib.Vector.get_set_of_ne h]

theorem valid_place (g : Grid) (i : Fin 81) (d : Nat) (b : Bool) (hv : valid g)
    (hfree : free g i d) : valid (g.set i (d, b)) := by
  intro a c hne hrel hnz
  by_cases ha : i = a
  · subst ha
    have hc : i ≠ c := hne
    rw [val_set_same, val_set_ne _ hc]
    exact fun e => hfree c (related_symm hrel) e.symm
  · by_cases hc : i = c
    · subst hc
      rw [val_set_same, val_set_ne _ ha]
      exact hfree a hrel
    · rw [val_set_ne _ ha] at hnz ⊢
      rw [val_set_ne _ hc]
      exact hv a c hne hrel hnz

theorem valid_clear (g : Grid) (i : Fin 81) (b : Bool) (hv : valid g) :
    valid (g.set i (0, b)) := by
  intro a c hne hrel hnz
  by_cases ha : i = a
  · subst ha
    rw [val_set_same] at hnz
    exact absurd rfl hnz
  · by_cases hc : i = c
    · subst hc
      rw [val_set_same]
      exact hnz
    · rw [val_set_ne _ ha] at hnz ⊢
      rw [val_set_ne _ hc]
      exact hv a c hne hrel hnz

theorem valid_step (s t : State) (b : Bool) (hv : valid s.m_sudoku)
    (h : solveSudoku s = .ok (b, t)) : valid t.m_sudoku := by
  by_cases hi : s.index < 81
  · rcases (solveSudoku_ok_cases s hi b t h).2 with ⟨_, rfl⟩ | ⟨_, d, _, _, h4, _, rfl⟩ |
        ⟨_, _, k, _, _, _, rfl⟩
    · exact hv
    · exact valid_place _ _ _ _ hv h4
    · exact valid_clear _ _ _ hv
  · rw [solveSudoku_done s (by omega)] at h
    injection h with h
    injection h with _ ht
    rw [← ht]; exact hv

theorem cell_mod (x y : Nat) (hx : x < 9) (hy : y < 9) : (x + y * 9) % U32 = x + y * 9 :=
  Nat.mod_eq_of_lt (by unfold U32; omega)

theorem enterDigit_eq (g : Grid) (code x y : Nat) (hx : x < 9) (hy : y < 9) :
    enterDigit g code x y =
      if free g ⟨x + y * 9, by omega⟩ (code - 26)
      then .ok (g.set ⟨x + y * 9, by omega⟩ (code - 26, true)) else .ok g := by
  have hlt : x + y * 9 < 81 := by omega
  unfold enterDigit
  rw [validateCell_eq g _ hx hy, cell_mod x y hx hy]
  by_cases hf : free g ⟨x + y * 9, hlt⟩ (code - 26)
  · simp [hf, arrSet, hlt]
  · simp [hf]

theorem backspace_eq (g : Grid) (x y : Nat) (hx : x < 9) (hy : y < 9) :
    backspace g x y =
      .ok (g.set ⟨x + y * 9, by omega⟩ (0, (g.get ⟨x + y * 9, by omega⟩).2)) := by
  have hlt : x + y * 9 < 81 := by omega
  unfold backspace
  rw [cell_mod x y hx hy]
  simp [setFirst, hlt]

theorem complete_of_done (g0 : Grid) (s : State) (hinv : Inv g0 s) (h81 : 81 ≤ s.index)
    (hdig : ∀ j : Fin 81, isFixed g0 j = true → 1 ≤ val g0 j ∧ val g0 j ≤ 9)
    (hv : valid g0) :
    (∀ j : Fin 81, 1 ≤ val s.m_sudoku j ∧ val s.m_sudoku j ≤ 9) ∧
    (∀ i j : Fin 81, i ≠ j → related i j → val s.m_sudoku i ≠ val s.m_sudoku j) ∧
    (∀ j : Fin 81, isFixed g0 j = true → s.m_sudoku.get j = g0.get j) := by
  have hall : ∀ j : Fin 81, 1 ≤ val s.m_sudoku j ∧ val s.m_sudoku j ≤ 9 := by
    intro j
    by_cases hj : isFixed g0 j = true
    · rw [hinv.fixedVal j hj]; exact hdig j hj
    · have hj2 : isFixed g0 j = false := by simpa using hj
      exact ⟨(hinv.before j hj2 (by omega)).1, hinv.le9 j hj2⟩
  refine ⟨hall, ?_, ?_⟩
  · intro i j hne hrel
    by_cases hi : isFixed g0 i = true
    · by_cases hj : isFixed g0 j = true
      · rw [hinv.fixedVal i hi, hinv.fixedVal j hj]
        exact hv i j hne hrel (by have := hdig i hi; omega)
      · have hj2 : isFixed g0 j = false := by simpa using hj
        exact (hinv.before j hj2 (by omega)).2 i hne hrel
          (Or.inl (by rw [hinv.flags]; exact hi))
    · have hi2 : isFixed g0 i = false := by simpa using hi
      by_cases hj : isFixed g0 j = true
      · exact fun e => (hinv.before i hi2 (by omega)).2 j (Ne.symm hne) (related_symm hrel)
          (Or.inl (by rw [hinv.flags]; exact hj)) e.symm
      · have hj2 : isFixed g0 j = false := by simpa using hj
        rcases lt_or_gt_of_ne hne with c | c
        · exact (hinv.before j hj2 (by omega)).2 i hne hrel (Or.inr c)
        · exact fun e => (hinv.before i hi2 (by omega)).2 j (Ne.symm hne) (related_symm hrel)
            (Or.inr c) e.symm
  · intro j hj
    have h1 := hinv.fixedVal j hj
    have h2 := hinv.flags j
    unfold val at h1
    unfold isFixed at h2
    exact Prod.ext h1 h2

theorem validB_iff (g : Grid) : validB g = true ↔ valid g := by
  unfold validB valid
  simp only [List.all_eq_true, List.mem_finRange, true_implies, decide_eq_true_eq]

theorem digitsB_iff (g : Grid) : digitsB g = true ↔ ∀ j : Fin 81, 1 ≤ val g j ∧ val g j ≤ 9 := by
  unfold digitsB
  simp only [List.all_eq_true, List.mem_finRange, true_implies, decide_eq_true_eq]

set_option maxRecDepth 100000 in
theorem solvedGrid_valid : valid solvedGrid :=
  (validB_iff solvedGrid).mp (by decide)

set_option maxRecDepth 100000 in
theorem solvedGrid_digits : ∀ j : Fin 81, 1 ≤ val solvedGrid j ∧ val solvedGrid j ≤ 9 :=
  (digitsB_iff solvedGrid).mp (by decide)

set_option maxRecDepth 100000 in
theorem deadEndGrid_valid : valid deadEndGrid :=
  (validB_iff deadEndGrid).mp (by decide)

/-- C1: for every grid, every number (the digits 1..9 among them) and every
target cell with column `x` and row `y` in 0..8, `validateCell` returns, and
it returns `true` exactly when none of the 9 cells of row `y`, none of the 9
cells of column `x` and none of the 9 cells of the 3x3 subgrid with origin
`((x/3)*3, (y/3)*3)` holds the number; the target cell is among the cells
scanned.  The function only reads the grid: its result is a `bool`, no grid. -/
theorem C1_validateCell_scans (g : Grid) (number x y : Nat) (hx : x < 9) (hy : y < 9) :
    validateCell g number x y = .ok (decide (
      (∀ i : Fin 9, val g ⟨i.val + y * 9, by omega⟩ ≠ number) ∧
      (∀ i : Fin 9, val g ⟨x + i.val * 9, by omega⟩ ≠ number) ∧
      (∀ a b : Fin 3,
        val g ⟨(x / 3 * 3 + a.val) + (y / 3 * 3 + b.val) * 9, by omega⟩ ≠ number))) := by
  rw [validateCell_eq g number hx hy]
  congr 1
  rw [decide_eq_decide]
  constructor
  · intro hfree
    refine ⟨fun i => hfree _ ?_, fun i => hfree _ ?_, fun a b => hfree _ ?_⟩
    · show related (i.val + y * 9) (x + y * 9)
      unfold related; omega
    · show related (x + i.val * 9) (x + y * 9)
      unfold related; omega
    · show related ((x / 3 * 3 + a.val) + (y / 3 * 3 + b.val) * 9) (x + y * 9)
      unfold related; omega
  · rintro ⟨hrow, hcol, hbox⟩ k hrel
    have hrel2 : related k.val (x + y * 9) := hrel
    unfold related at hrel2
    have hk := k.isLt
    rcases hrel2 with h | h | h
    · have e0 : k.val % 9 + y * 9 = k.val := by omega
      have e : (⟨k.val % 9 + y * 9, by omega⟩ : Fin 81) = k := Fin.ext e0
      have := hrow ⟨k.val % 9, by omega⟩
      rwa [e] at this
    · have e0 : x + k.val / 9 * 9 = k.val := by omega
      have e : (⟨x + k.val / 9 * 9, by omega⟩ : Fin 81) = k := Fin.ext e0
      have := hcol ⟨k.val / 9, by omega⟩
      rwa [e] at this
    · have e0 : (x / 3 * 3 + k.val % 9 % 3) + (y / 3 * 3 + k.val / 9 % 3) * 9 = k.val := by
        omega
      have e : (⟨(x / 3 * 3 + k.val % 9 % 3) + (y / 3 * 3 + k.val / 9 % 3) * 9, by omega⟩ :
          Fin 81) = k := Fin.ext e0
      have := hbox ⟨k.val % 9 % 3, by omega⟩ ⟨k.val / 9 % 3, by omega⟩
      rwa [e] at this

/-- C1 at the grid `retryGrid`, the digit 2 and the cell in column 1 of row
0: both bounds hold, and the answer is what the three scans give. -/
theorem C1_validateCell_scans_witness :
    ((1 : Nat) < 9 ∧ (0 : Nat) < 9) ∧
    validateCell retryGrid 2 1 0 = .ok (decide (
      (∀ i : Fin 9, val retryGrid ⟨i.val + 0 * 9, by omega⟩ ≠ 2) ∧
      (∀ i : Fin 9, val retryGrid ⟨1 + i.val * 9, by omega⟩ ≠ 2) ∧
      (∀ a b : Fin 3,
        val retryGrid ⟨(1 / 3 * 3 + a.val) + (0 / 3 * 3 + b.val) * 9, by omega⟩ ≠ 2))) :=
  ⟨⟨by decide, by decide⟩, C1_validateCell_scans retryGrid 2 1 0 (by decide) (by decide)⟩

theorem solveSteps_done (n : Nat) (s : State) (h : 81 ≤ s.index) : solveSteps n s = .ok s := by
  induction n with
  | zero => rfl
  | succ n ih => rw [solveSteps, solveSudoku_done s h]; exact ih

/-- C8: in every state with index >= 81, `solveSudoku` returns `true` and
leaves the grid (values and flags), the candidate memory and the index as
they are, so any number of further calls ends in the same state. -/
theorem C8_solved_is_idempotent (s : State) (h : 81 ≤ s.index) :
    solveSudoku s = .ok (true, s) ∧ ∀ n : Nat, solveSteps n s = .ok s :=
  ⟨solveSudoku_done s h, fun n => solveSteps_done n s h⟩

/-- C8 at the solved grid with index 81. -/
theorem C8_solved_is_idempotent_witness :
    (81 ≤ (State.mk solvedGrid zeroNumbers 81).index) ∧
    solveSudoku (State.mk solvedGrid zeroNumbers 81) =
      .ok (true, State.mk solvedGrid zeroNumbers 81) ∧
    ∀ n : Nat, solveSteps n (State.mk solvedGrid zeroNumbers 81) =
      .ok (State.mk solvedGrid zeroNumbers 81) :=
  ⟨by decide, C8_solved_is_idempotent (State.mk solvedGrid zeroNumbers 81) (by decide)⟩

/-- C9: in a state with index `i` in 0..80 whose cell `i` is not user-entered,
let the starting digit be `candidates[i]` if non-zero, else 1.  If `d` is the
least digit from the starting digit up to 9 that `validateCell` accepts at
(column `i % 9`, row `i / 9`), one call returns `false`, sets the value of
cell `i` and `candidates[i]` to `d`, raises the index by exactly 1, and
changes no other cell value, no flag and no other candidate entry. -/
theorem C9_places_least_digit (s : State) (hi : s.index < 81)
    (hf : isFixed s.m_sudoku ⟨s.index, hi⟩ = false) (d : Nat)
    (hlo : startNum s.m_numbers ⟨s.index, hi⟩ ≤ d) (hhi : d ≤ 9)
    (hacc : validateCell s.m_sudoku d (s.index % 9) (s.index / 9) = .ok true)
    (hleast : ∀ e, startNum s.m_numbers ⟨s.index, hi⟩ ≤ e → e < d →
      validateCell s.m_sudoku e (s.index % 9) (s.index / 9) ≠ .ok true) :
    ∃ t : State, solveSudoku s = .ok (false, t) ∧ t.index = s.index + 1 ∧
      val t.m_sudoku ⟨s.index, hi⟩ = d ∧ t.m_numbers.get ⟨s.index, hi⟩ = d ∧
      (∀ j : Fin 81, j ≠ ⟨s.index, hi⟩ → val t.m_sudoku j = val s.m_sudoku j) ∧
      (∀ j : Fin 81, isFixed t.m_sudoku j = isFixed s.m_sudoku j) ∧
      (∀ j : Fin 81, j ≠ ⟨s.index, hi⟩ → t.m_numbers.get j = s.m_numbers.get j) := by
  have hfreeD : free s.m_sudoku ⟨s.index, hi⟩ d := by
    rw [validateCell_at _ _ hi] at hacc
    simpa using hacc
  have hnot : ∀ e, startNum s.m_numbers ⟨s.index, hi⟩ ≤ e → e < d →
      ¬ free s.m_sudoku ⟨s.index, hi⟩ e := by
    intro e h1 h2 hfr
    apply hleast e h1 h2
    rw [validateCell_at _ _ hi]
    simp [hfr]
  have hstep : solveSudoku s = .ok (false, placeAt s ⟨s.index, hi⟩ d) := by
    rcases solveSudoku_cases s hi with ⟨h1, _⟩ | ⟨_, d2, h2, h3, h4, h5, h6⟩ |
        ⟨_, h2, _⟩ | ⟨_, h2, _⟩
    · rw [hf] at h1; cases h1
    · have : d2 = d := by
        rcases Nat.lt_trichotomy d2 d with c | c | c
        · exact absurd h4 (hnot d2 h2 c)
        · exact c
        · exact absurd hfreeD (h5 d hlo c)
      rw [h6, this]
    · exact absurd hfreeD (h2 d hlo hhi)
    · exact absurd hfreeD (h2 d hlo hhi)
  refine ⟨placeAt s ⟨s.index, hi⟩ d, hstep, rfl, ?_, ?_, ?_, ?_, ?_⟩
  · exact val_setFirst_same _ _ _
  · exact Mathlib.Vector.get_set_same _ _ _
  · intro j hj
    exact val_setFirst_ne _ (Ne.symm hj) _
  · intro j
    exact isFixed_setFirst _ _ _ _
  · intro j hj
    exact Mathlib.Vector.get_set_of_ne (Ne.symm hj) _

/-- C9 at the first call on `retryGrid`: the index is 0, the candidate is 0,
the digit 1 is accepted and nothing below it is tried. -/
theorem C9_places_least_digit_witness :
    ∃ t : State, solveSudoku (startState retryGrid) = .ok (false, t) ∧ t.index = 0 + 1 ∧
      val t.m_sudoku ⟨0, by decide⟩ = 1 ∧ t.m_numbers.get ⟨0, by decide⟩ = 1 ∧
      (∀ j : Fin 81, j ≠ ⟨0, by decide⟩ → val t.m_sudoku j = val retryGrid j) ∧
      (∀ j : Fin 81, isFixed t.m_sudoku j = isFixed retryGrid j) ∧
      (∀ j : Fin 81, j ≠ ⟨0, by decide⟩ → t.m_numbers.get j = zeroNumbers.get j) :=
  C9_places_least_digit (startState retryGrid) (by decide) (by decide) 1 (by decide) (by decide)
    (by decide) (fun e h1 h2 => by
      have h3 : 1 ≤ e := h1
      omega)

theorem free_own_false (g : Grid) (t : Fin 81) : ¬ free g t (val g t) :=
  fun h => h t (Or.inl rfl) rfl

theorem free_cleared (g : Grid) (t : Fin 81) (b : Bool) (hv : valid g) (hpos : val g t ≠ 0) :
    free (g.set t (0, b)) t (val g t) := by
  intro k hrel
  by_cases hk : t = k
  · subst hk
    rw [val_set_same]
    exact fun e => hpos e.symm
  · rw [val_set_ne _ hk]
    exact fun e => hv t k hk (related_symm hrel) hpos e.symm

/-- C6, the claim as stated, fails at the solved grid: the grid is completely
filled and free of repeats, its first cell holds 1, and `validateCell` called
with 1 at that cell returns `false`. -/
theorem C6_own_digit_counterexample :
    (∀ j : Fin 81, 1 ≤ val solvedGrid j ∧ val solvedGrid j ≤ 9) ∧ valid solvedGrid ∧
    val solvedGrid ⟨0 + 0 * 9, by decide⟩ = 1 ∧
    validateCell solvedGrid (val solvedGrid ⟨0 + 0 * 9, by decide⟩) 0 0 = .ok false :=
  ⟨solvedGrid_digits, solvedGrid_valid, by decide, by decide⟩

/-- C6 as amended: for every completely filled grid with no digit repeated in
any row, column or 3x3 subgrid, and every cell of it, `validateCell` called
with the cell's own digit at the cell's position returns `false` while the
cell holds the digit (the target cell is among the cells scanned), and
returns `true` once the target cell has been cleared to 0. -/
theorem C6_own_digit_rejected_until_cleared (g : Grid)
    (hfull : ∀ j : Fin 81, 1 ≤ val g j ∧ val g j ≤ 9) (hv : valid g)
    (x y : Nat) (hx : x < 9) (hy : y < 9) :
    validateCell g (val g ⟨x + y * 9, by omega⟩) x y = .ok false ∧
    validateCell (g.set ⟨x + y * 9, by omega⟩ (0, (g.get ⟨x + y * 9, by omega⟩).2))
      (val g ⟨x + y * 9, by omega⟩) x y = .ok true := by
  have hlt : x + y * 9 < 81 := by omega
  constructor
  · rw [validateCell_eq g _ hx hy]
    congr 1
    exact decide_eq_false (free_own_false g ⟨x + y * 9, hlt⟩)
  · rw [validateCell_eq _ _ hx hy]
    congr 1
    exact decide_eq_true (free_cleared g ⟨x + y * 9, hlt⟩ _ hv
      (by have := (hfull ⟨x + y * 9, hlt⟩).1; omega))

/-- C6 as amended at the solved grid and its middle cell (column 4, row 4). -/
theorem C6_own_digit_rejected_until_cleared_witness :
    ((∀ j : Fin 81, 1 ≤ val solvedGrid j ∧ val solvedGrid j ≤ 9) ∧ valid solvedGrid ∧
      (4 : Nat) < 9 ∧ (4 : Nat) < 9) ∧
    validateCell solvedGrid (val solvedGrid ⟨4 + 4 * 9, by omega⟩) 4 4 = .ok false ∧
    validateCell (solvedGrid.set ⟨4 + 4 * 9, by omega⟩
        (0, (solvedGrid.get ⟨4 + 4 * 9, by omega⟩).2))
      (val solvedGrid ⟨4 + 4 * 9, by omega⟩) 4 4 = .ok true :=
  ⟨⟨solvedGrid_digits, solvedGrid_valid, by decide, by decide⟩,
    C6_own_digit_rejected_until_cleared solvedGrid solvedGrid_digits solvedGrid_valid 4 4
      (by decide) (by decide)⟩

/-- C7: grid validity (no two distinct cells of one row, one column or one
3x3 subgrid hold the same non-zero value) is kept by every change of the
grid.  For a valid grid: whatever the candidate memory and the index in
0..80, the grid after a call of `solveSudoku` that returns is valid; for a
selected cell in range, a digit key (codes 27..35) gives a grid, and it is
valid; a backspace gives a grid, and it is valid. -/
theorem C7_validity_preserved (g : Grid) (hv : valid g) :
    (∀ (m : Numbers) (i : Nat) (b : Bool) (t : State), i < 81 →
      solveSudoku (State.mk g m i) = .ok (b, t) → valid t.m_sudoku) ∧
    (∀ code x y : Nat, 27 ≤ code → code ≤ 35 → x < 9 → y < 9 →
      ∃ h : Grid, enterDigit g code x y = .ok h ∧ valid h) ∧
    (∀ x y : Nat, x < 9 → y < 9 → ∃ h : Grid, backspace g x y = .ok h ∧ valid h) := by
  refine ⟨?_, ?_, ?_⟩
  · intro m i b t _ hstep
    exact valid_step (State.mk g m i) t b hv hstep
  · intro code x y _ _ hx hy
    rw [enterDigit_eq g code x y hx hy]
    by_cases hf : free g ⟨x + y * 9, by omega⟩ (code - 26)
    · rw [if_pos hf]
      exact ⟨_, rfl, valid_place _ _ _ _ hv hf⟩
    · rw [if_neg hf]
      exact ⟨_, rfl, hv⟩
  · intro x y hx hy
    rw [backspace_eq g x y hx hy]
    exact ⟨_, rfl, valid_clear _ _ _ hv⟩

/-- C7 at the valid grid `deadEndGrid`: the call at index 10 places a digit,
the key 9 at the middle cell is accepted, the backspace at column 1 of row 0
clears an entry, and all three grids are valid. -/
theorem C7_validity_preserved_witness :
    valid deadEndGrid ∧
    (∃ t : State, solveSudoku (State.mk deadEndGrid zeroNumbers 10) = .ok (false, t) ∧
      val t.m_sudoku ⟨10, by decide⟩ = 3 ∧ valid t.m_sudoku) ∧
    (∃ h : Grid, enterDigit deadEndGrid 35 4 4 = .ok h ∧ val h ⟨40, by decide⟩ = 9 ∧ valid h) ∧
    (∃ h : Grid, backspace deadEndGrid 1 0 = .ok h ∧ val h ⟨1, by decide⟩ = 0 ∧ valid h) := by
  have hall := C7_validity_preserved deadEndGrid deadEndGrid_valid
  refine ⟨deadEndGrid_valid, ?_, ?_, ?_⟩
  · have hs : solveSudoku (State.mk deadEndGrid zeroNumbers 10) =
        .ok (false, placeAt (State.mk deadEndGrid zeroNumbers 10) ⟨10, by decide⟩ 3) := by
      decide
    exact ⟨_, hs, by decide, hall.1 zeroNumbers 10 false _ (by decide) hs⟩
  · obtain ⟨h, h1, h2⟩ := hall.2.1 35 4 4 (by decide) (by decide) (by decide) (by decide)
    refine ⟨h, h1, ?_, h2⟩
    have h3 : enterDigit deadEndGrid 35 4 4 =
        .ok (deadEndGrid.set ⟨40, by decide⟩ (9, true)) := by decide
    rw [h3] at h1
    injection h1 with h1
    rw [← h1]
    decide
  · obtain ⟨h, h1, h2⟩ := hall.2.2 1 0 (by decide) (by decide)
    refine ⟨h, h1, ?_, h2⟩
    have h3 : backspace deadEndGrid 1 0 =
        .ok (deadEndGrid.set ⟨1, by decide⟩ (0, true)) := by decide
    rw [h3] at h1
    injection h1 with h1
    rw [← h1]
    decide

theorem zeroNumbers_get (j : Fin 81) : zeroNumbers.get j = 0 := by
  unfold zeroNumbers
  exact Mathlib.Vector.get_replicate _ _

theorem start_startState (g : Grid) (h : unfixedEmptyB g = true) : Start (startState g) where
  idx := rfl
  nums := zeroNumbers_get
  empty := by
    unfold unfixedEmptyB at h
    simp only [List.all_eq_true, List.mem_finRange, true_implies, decide_eq_true_eq] at h
    exact h

theorem emptyGrid_completion : Completion emptyGrid solvedGrid where
  fixedSame := fun j hj => by
    have : isFixed emptyGrid j = false := by
      unfold isFixed emptyGrid
      rw [Mathlib.Vector.get_replicate]
    rw [this] at hj
    cases hj
  digits := fun j _ => solvedGrid_digits j
  norepeat := solvedGrid_valid

theorem reaches_end_of_completion (s0 : State) (hs : Start s0)
    (hc : ∃ g : Grid, Completion s0.m_sudoku g) :
    ∃ n s, solveSteps n s0 = .ok s ∧ s.index = 81 := by
  obtain ⟨n, s, hrun, hstop⟩ := search_stops s0.m_sudoku s0 (Inv_start s0 hs)
  rcases hstop with h | h
  · exact ⟨n, s, hrun, h⟩
  · exact absurd hc (no_completion_of_abandon s0.m_sudoku s
      (Inv_steps _ n s0 s (Inv_start s0 hs) hrun)
      (NoMissed_steps _ n s0 s (Inv_start s0 hs) (NoMissed_start s0 hs) hrun) h)

/-- C2: from a start state (index 0, candidate memory all zero, every cell
that is not user-entered empty) whose user-entered cells hold digits 1..9
with no digit repeated in a row, column or 3x3 subgrid: when `n` calls of
`solveSudoku` have brought the index to 81, the next call returns `true`,
every one of the 81 cells holds a digit 1..9, no two distinct cells of a row,
column or subgrid hold the same digit, and every user-entered cell is as it
was at the start. -/
theorem C2_solved_grid_is_valid (s0 : State) (hs : Start s0)
    (hdig : ∀ j : Fin 81, isFixed s0.m_sudoku j = true →
      1 ≤ val s0.m_sudoku j ∧ val s0.m_sudoku j ≤ 9)
    (hv : valid s0.m_sudoku) (n : Nat) (s : State)
    (hrun : solveSteps n s0 = .ok s) (h81 : 81 ≤ s.index) :
    solveSudoku s = .ok (true, s) ∧
    (∀ j : Fin 81, 1 ≤ val s.m_sudoku j ∧ val s.m_sudoku j ≤ 9) ∧
    (∀ i j : Fin 81, i ≠ j → related i j → val s.m_sudoku i ≠ val s.m_sudoku j) ∧
    (∀ j : Fin 81, isFixed s0.m_sudoku j = true → s.m_sudoku.get j = s0.m_sudoku.get j) :=
  ⟨solveSudoku_done s h81,
    complete_of_done s0.m_sudoku s (Inv_steps _ n s0 s (Inv_start s0 hs) hrun) h81 hdig hv⟩

/-- C2 on the empty grid: it is a start state without user-entered cells,
some number of calls brings the index to 81, and the grid then is completely
filled with digits 1..9 and free of repeats. -/
theorem C2_solved_grid_is_valid_witness :
    Start (startState emptyGrid) ∧ valid emptyGrid ∧
    ∃ n s, solveSteps n (startState emptyGrid) = .ok s ∧ 81 ≤ s.index ∧
      solveSudoku s = .ok (true, s) ∧
      (∀ j : Fin 81, 1 ≤ val s.m_sudoku j ∧ val s.m_sudoku j ≤ 9) ∧
      (∀ i j : Fin 81, i ≠ j → related i j → val s.m_sudoku i ≠ val s.m_sudoku j) ∧
      (∀ j : Fin 81, isFixed emptyGrid j = true → s.m_sudoku.get j = emptyGrid.get j) := by
  have hs : Start (startState emptyGrid) := start_startState emptyGrid (by decide)
  have hval : ∀ j : Fin 81, val emptyGrid j = 0 := fun j => by
    unfold val emptyGrid
    rw [Mathlib.Vector.get_replicate]
  have hfix : ∀ j : Fin 81, isFixed emptyGrid j = false := fun j => by
    unfold isFixed emptyGrid
    rw [Mathlib.Vector.get_replicate]
  have hv : valid emptyGrid := fun i _ _ _ hnz => absurd (hval i) hnz
  obtain ⟨n, s, hrun, hidx⟩ :=
    reaches_end_of_completion (startState emptyGrid) hs ⟨solvedGrid, emptyGrid_completion⟩
  exact ⟨hs, hv, n, s, hrun, by omega,
    C2_solved_grid_is_valid (startState emptyGrid) hs
      (fun j hj => by
        have h0 : isFixed emptyGrid j = true := hj
        rw [hfix j] at h0
        cases h0)
      hv n s hrun (by omega)⟩

/-- C3: from a start state (index 0, candidate memory all zero, every cell
that is not user-entered empty), if after some calls `solveSudoku` is at a
cell where no digit from the starting one up to 9 is accepted and no cell
before it can be returned to, then no grid keeps the user-entered values,
holds digits 1..9 in the other cells and is free of repeats in every row,
column and 3x3 subgrid.  The call made in such a state is the one whose
decrement passes below index 0.  A puzzle with a solution is never abandoned. -/
theorem C3_abandon_means_unsolvable (s0 : State) (hs : Start s0) (n : Nat) (s : State)
    (hrun : solveSteps n s0 = .ok s) (hab : Abandons s) :
    solveSudoku s = .error .out_of_range ∧ ¬ ∃ g : Grid, Completion s0.m_sudoku g :=
  ⟨(abandons_iff_error s).mp hab,
    no_completion_of_abandon s0.m_sudoku s (Inv_steps _ n s0 s (Inv_start s0 hs) hrun)
      (NoMissed_steps _ n s0 s (Inv_start s0 hs) (NoMissed_start s0 hs) hrun) hab⟩

/-- C3 at `deadEndGrid`, a duplicate-free grid of user-entered digits: the
first call already finds no digit for cell 0, and the grid has no completion. -/
theorem C3_abandon_means_unsolvable_witness :
    (Start (startState deadEndGrid) ∧ valid deadEndGrid ∧
      solveSteps 0 (startState deadEndGrid) = .ok (startState deadEndGrid) ∧
      Abandons (startState deadEndGrid)) ∧
    solveSudoku (startState deadEndGrid) = .error .out_of_range ∧
    ¬ ∃ g : Grid, Completion deadEndGrid g := by
  have hs : Start (startState deadEndGrid) := start_startState deadEndGrid (by decide)
  have hab : Abandons (startState deadEndGrid) :=
    (abandons_iff_error _).mpr (by decide)
  exact ⟨⟨hs, deadEndGrid_valid, rfl, hab⟩,
    C3_abandon_means_unsolvable (startState deadEndGrid) hs 0 (startState deadEndGrid) rfl hab⟩

/-- C4: from a start state (index 0, candidate memory all zero, every cell
that is not user-entered empty) there is a number `n` of calls of
`solveSudoku` after which the search has stopped: the index is 81 and every
further call returns `true`, or the search abandons the puzzle and the next
call is the one whose decrement passes below index 0. -/
theorem C4_search_terminates (s0 : State) (hs : Start s0) :
    ∃ n s, solveSteps n s0 = .ok s ∧
      ((s.index = 81 ∧ solveSudoku s = .ok (true, s)) ∨
       (Abandons s ∧ solveSudoku s = .error .out_of_range)) := by
  obtain ⟨n, s, hrun, hstop⟩ := search_stops s0.m_sudoku s0 (Inv_start s0 hs)
  refine ⟨n, s, hrun, ?_⟩
  rcases hstop with h | h
  · exact Or.inl ⟨h, solveSudoku_done s (by omega)⟩
  · exact Or.inr ⟨h, (abandons_iff_error s).mp h⟩

/-- C4 at the start state of `retryGrid`. -/
theorem C4_search_terminates_witness :
    Start (startState retryGrid) ∧
    ∃ n s, solveSteps n (startState retryGrid) = .ok s ∧
      ((s.index = 81 ∧ solveSudoku s = .ok (true, s)) ∨
       (Abandons s ∧ solveSudoku s = .error .out_of_range)) :=
  ⟨start_startState retryGrid (by decide),
    C4_search_terminates (startState retryGrid) (start_startState retryGrid (by decide))⟩

/-- C10: in every state reached by calls of `solveSudoku` from a start state,
a call that returns leaves each entry of the candidate memory as it was,
resets it to 0, or writes a strictly greater digit that is at most 9.  With
the index on a cell `i` that is not user-entered and `candidates[i] = c`
non-zero, `validateCell` rejects `c` itself (the cell still holds it), so the
call either resets `candidates[i]` to 0 or writes a digit above `c` and at
most 9: the search resumes from `c + 1` and never places `c` again. -/
theorem C10_candidates_increase (s0 : State) (hs : Start s0) (n : Nat) (s : State)
    (hrun : solveSteps n s0 = .ok s) (b : Bool) (t : State)
    (hstep : solveSudoku s = .ok (b, t)) :
    (∀ j : Fin 81, t.m_numbers.get j = s.m_numbers.get j ∨ t.m_numbers.get j = 0 ∨
      (s.m_numbers.get j < t.m_numbers.get j ∧ t.m_numbers.get j ≤ 9)) ∧
    (∀ hi : s.index < 81, isFixed s.m_sudoku ⟨s.index, hi⟩ = false →
      s.m_numbers.get ⟨s.index, hi⟩ ≠ 0 →
      validateCell s.m_sudoku (s.m_numbers.get ⟨s.index, hi⟩) (s.index % 9) (s.index / 9)
        = .ok false ∧
      (t.m_numbers.get ⟨s.index, hi⟩ = 0 ∨
        (s.m_numbers.get ⟨s.index, hi⟩ < t.m_numbers.get ⟨s.index, hi⟩ ∧
          t.m_numbers.get ⟨s.index, hi⟩ ≤ 9))) := by
  have hinv : Inv s0.m_sudoku s := Inv_steps _ n s0 s (Inv_start s0 hs) hrun
  have hrej : ∀ hi : s.index < 81, isFixed s.m_sudoku ⟨s.index, hi⟩ = false →
      validateCell s.m_sudoku (s.m_numbers.get ⟨s.index, hi⟩) (s.index % 9) (s.index / 9)
        = .ok false := by
    intro hi hf
    have hf0 : isFixed s0.m_sudoku ⟨s.index, hi⟩ = false := by rw [← hinv.flags]; exact hf
    rw [validateCell_at _ _ hi, ← hinv.eq_num _ hf0]
    congr 1
    exact decide_eq_false (free_own_false _ _)
  by_cases hi : s.index < 81
  · rcases (solveSudoku_ok_cases s hi b t hstep).2 with ⟨h1, rfl⟩ | ⟨h1, d, h2, h3, h4, _, rfl⟩ |
        ⟨h1, _, k, _, _, _, rfl⟩
    · refine ⟨fun j => Or.inl rfl, fun _ hf _ => ?_⟩
      rw [h1] at hf; cases hf
    · have hf0 : isFixed s0.m_sudoku ⟨s.index, hi⟩ = false := by rw [← hinv.flags]; exact h1
      have hc : s.m_numbers.get ⟨s.index, hi⟩ < d := by
        have hne := free_self_ne _ _ _ h4
        rw [hinv.eq_num _ hf0] at hne
        have hle := startNum_le s.m_numbers ⟨s.index, hi⟩
        omega
      have hnew : (placeAt s ⟨s.index, hi⟩ d).m_numbers.get ⟨s.index, hi⟩ = d :=
        Mathlib.Vector.get_set_same _ _ _
      refine ⟨fun j => ?_, fun _ hf _ => ⟨hrej hi hf, Or.inr ?_⟩⟩
      · by_cases e : (⟨s.index, hi⟩ : Fin 81) = j
        · subst e
          right; right
          rw [hnew]
          exact ⟨hc, h3⟩
        · left
          exact Mathlib.Vector.get_set_of_ne e _
      · rw [hnew]
        exact ⟨hc, h3⟩
    · have hnew : (clearAt s ⟨s.index, hi⟩ k.val).m_numbers.get ⟨s.index, hi⟩ = 0 :=
        Mathlib.Vector.get_set_same _ _ _
      refine ⟨fun j => ?_, fun _ hf _ => ⟨hrej hi hf, Or.inl hnew⟩⟩
      by_cases e : (⟨s.index, hi⟩ : Fin 81) = j
      · subst e
        right; left
        exact hnew
      · left
        exact Mathlib.Vector.get_set_of_ne e _
  · rw [solveSudoku_done s (by omega)] at hstep
    injection hstep with hstep
    injection hstep with _ ht
    subst ht
    exact ⟨fun j => Or.inl rfl, fun h => absurd h hi⟩

/-- C10 on `retryGrid`: two calls after the start the index is back on cell
0, which is not user-entered and has candidate 1; the third call writes 2. -/
theorem C10_candidates_increase_witness :
    (Start (startState retryGrid) ∧ solveSteps 2 (startState retryGrid) = .ok retryMid ∧
      solveSudoku retryMid = .ok (false, retryNext) ∧ retryMid.index = 0 ∧
      isFixed retryMid.m_sudoku ⟨0, by decide⟩ = false ∧
      retryMid.m_numbers.get ⟨0, by decide⟩ = 1 ∧ retryNext.m_numbers.get ⟨0, by decide⟩ = 2) ∧
    (∀ j : Fin 81, retryNext.m_numbers.get j = retryMid.m_numbers.get j ∨
      retryNext.m_numbers.get j = 0 ∨
      (retryMid.m_numbers.get j < retryNext.m_numbers.get j ∧
        retryNext.m_numbers.get j ≤ 9)) ∧
    (∀ hi : retryMid.index < 81, isFixed retryMid.m_sudoku ⟨retryMid.index, hi⟩ = false →
      retryMid.m_numbers.get ⟨retryMid.index, hi⟩ ≠ 0 →
      validateCell retryMid.m_sudoku (retryMid.m_numbers.get ⟨retryMid.index, hi⟩)
        (retryMid.index % 9) (retryMid.index / 9) = .ok false ∧
      (retryNext.m_numbers.get ⟨retryMid.index, hi⟩ = 0 ∨
        (retryMid.m_numbers.get ⟨retryMid.index, hi⟩ <
            retryNext.m_numbers.get ⟨retryMid.index, hi⟩ ∧
          retryNext.m_numbers.get ⟨retryMid.index, hi⟩ ≤ 9))) :=
  ⟨⟨start_startState retryGrid (by decide), by decide, by decide, by decide, by decide,
      by decide, by decide⟩,
    C10_candidates_increase (startState retryGrid) (start_startState retryGrid (by decide))
      2 retryMid (by decide) false retryNext (by decide)⟩

end Sudoku
